import Mathlib

/-!
Verification of the dandd 8x8 dungeon-puzzle solver/generator (src/dandd.c).

The C program works on 64-bit grid values (one bit per cell, bit for cell i is
bit 63 - i), a `Puzzle` record (row/column wall-count targets plus monster and
treasure grid values), seven constraint predicates, a backtracking solver over
the 64 slots, and a backtracking generator over four tile kinds per slot.

Shallow embedding conventions:
  - `u64` grid values are `Nat` (all operations keep them below 2^64; `~x` on a
    u64 is embedded as `x ^^^ (2^64 - 1)`);
  - `i32` quantities (slots, rows, columns, set-bit counts) are `Int`; C's
    truncating division/remainder are `Int.tdiv` / `Int.tmod`;
  - `u8` wall-count targets are `Nat`; the C arrays `u8[8]` are embedded as
    total functions `Int → Nat` (every access in the program is at an index in
    0..7, the value elsewhere is irrelevant);
  - the C `while` loops of `solve`/`generate` are embedded with an explicit
    fuel parameter; running out of fuel yields `none`, so a `some` result is
    exactly a result the (always terminating) C program returns;
  - `count_set_bits`'s `while (n) n &= n - 1;` loop runs once per set bit, so
    `n + 1` fuel is always enough; the fuel-indexed helper keeps the
    definition structurally recursive and kernel-computable.
-/

/-- Position: row (0-7) and column (0-7) of a cell, as in the C `Pos` struct
(i32 fields, so values outside 0..7 are representable and meaningful to the
out-of-range guards). -/
structure Pos where
  row : Int
  col : Int
deriving DecidableEq, Repr

/-- `pos_from_slot`: row = slot / 8, col = slot % 8 with C (truncating)
division. -/
def pos_from_slot (slot : Int) : Pos :=
  { row := Int.tdiv slot 8, col := Int.tmod slot 8 }

/-- `slot_set`: set the bit for `slot` (bit 63 - slot); no-op when `slot` is
outside 0..63. -/
def slot_set (m : Nat) (slot : Int) : Nat :=
  if slot < 0 ∨ 64 ≤ slot then m
  else m ||| (1 <<< (63 - slot).toNat)

/-- `slot_unset`: clear the bit for `slot`; no-op when `slot` is outside
0..63.  C's `~mask` on u64 is `mask ^^^ (2^64 - 1)`. -/
def slot_unset (m : Nat) (slot : Int) : Nat :=
  if slot < 0 ∨ 64 ≤ slot then m
  else m &&& ((1 <<< (63 - slot).toNat) ^^^ (2 ^ 64 - 1))

/-- `slot_is_set`: the masked value `m & (1 << (63 - slot))` (a u64, used as a
boolean by the callers); `0` when `slot` is outside 0..63. -/
def slot_is_set (m : Nat) (slot : Int) : Nat :=
  if slot < 0 ∨ 64 ≤ slot then 0
  else m &&& (1 <<< (63 - slot).toNat)

/-- `pos_set`: set the bit for position `pos` (bit 63 - (row*8 + col)); no-op
when the position is outside the 8x8 range. -/
def pos_set (m : Nat) (pos : Pos) : Nat :=
  if pos.row < 0 ∨ 8 ≤ pos.row ∨ pos.col < 0 ∨ 8 ≤ pos.col then m
  else m ||| (1 <<< (63 - (pos.row * 8 + pos.col)).toNat)

/-- `pos_unset`: clear the bit for position `pos`; no-op out of range. -/
def pos_unset (m : Nat) (pos : Pos) : Nat :=
  if pos.row < 0 ∨ 8 ≤ pos.row ∨ pos.col < 0 ∨ 8 ≤ pos.col then m
  else m &&& ((1 <<< (63 - (pos.row * 8 + pos.col)).toNat) ^^^ (2 ^ 64 - 1))

/-- `pos_is_set`: the masked value for position `pos`; `0` out of range. -/
def pos_is_set (m : Nat) (pos : Pos) : Nat :=
  if pos.row < 0 ∨ 8 ≤ pos.row ∨ pos.col < 0 ∨ 8 ≤ pos.col then 0
  else m &&& (1 <<< (63 - (pos.row * 8 + pos.col)).toNat)

/-- The loop of `count_set_bits`, indexed by fuel: clears the lowest set bit
(`n &= n - 1`) and counts one per iteration. -/
def csb_go : Nat → Nat → Int
  | 0, _ => 0
  | fuel + 1, n => if n = 0 then 0 else csb_go fuel (n &&& (n - 1)) + 1

/-- `count_set_bits`: population count by repeatedly clearing the lowest set
bit.  The loop runs once per set bit, and a number `n` has at most `n` set
bits, so fuel `n + 1` always suffices. -/
def count_set_bits (n : Nat) : Int := csb_go (n + 1) n

/-- `PuzzleArgs`: the friendlier list-of-positions form a puzzle is built
from.  The C struct carries `Pos [64]` arrays with a count; the embedded
lists stand for the first `count` entries (the C `assert`s bound the counts
by 64, which becomes a hypothesis where it matters). -/
structure PuzzleArgs where
  row_wall_counts : Int → Nat
  col_wall_counts : Int → Nat
  monsters : List Pos
  treasures : List Pos

/-- `Puzzle`: the internal puzzle record — per-row/per-column wall-count
targets and monster/treasure grid values. -/
structure Puzzle where
  row_wall_counts : Int → Nat
  col_wall_counts : Int → Nat
  monsters : Nat
  treasures : Nat

/-- `puzzle`: build the internal record from `PuzzleArgs` by accumulating
`pos_set` over the monster list and over the treasure list independently and
copying the count targets. -/
def puzzle (args : PuzzleArgs) : Puzzle :=
  { row_wall_counts := args.row_wall_counts
    col_wall_counts := args.col_wall_counts
    monsters := args.monsters.foldl pos_set 0
    treasures := args.treasures.foldl pos_set 0 }

/-- Constraint 1, `check_doesnt_overlap`: the candidate grid shares no set bit
with the treasure or monster grid (checked on the whole grid). -/
def check_doesnt_overlap (p : Puzzle) (solution : Nat) : Bool :=
  !(solution &&& p.treasures ≠ 0 ∨ solution &&& p.monsters ≠ 0)

/-- `count_walls_in_row`: popcount of the grid restricted to `row`'s 8 bits
(mask `0xFF00000000000000 >> row*8`). -/
def count_walls_in_row (solution : Nat) (row : Int) : Int :=
  count_set_bits ((0xFF00000000000000 >>> (row * 8).toNat) &&& solution)

/-- `count_walls_in_col`: popcount of the grid restricted to `col`'s 8 bits
(mask `0x8080808080808080 >> col`). -/
def count_walls_in_col (solution : Nat) (col : Int) : Int :=
  count_set_bits ((0x8080808080808080 >>> col.toNat) &&& solution)

/-- Constraint 2, `check_row_count`: walls in the toggled cell's row must not
exceed the row target, and must equal it exactly once the toggled cell is in
the last column.  (The C function `assert`s `0 ≤ slot < 64`; every call in
the program satisfies that.) -/
def check_row_count (p : Puzzle) (solution : Nat) (slot : Int) : Bool :=
  let pos := pos_from_slot slot
  let walls_in_row := count_walls_in_row solution pos.row
  if walls_in_row > (p.row_wall_counts pos.row : Int) then false
  else if pos.col = 7 ∧ walls_in_row ≠ (p.row_wall_counts pos.row : Int) then false
  else true

/-- Constraint 3, `check_col_count`: symmetric to `check_row_count`,
committed when the toggled cell is in the last row. -/
def check_col_count (p : Puzzle) (solution : Nat) (slot : Int) : Bool :=
  let pos := pos_from_slot slot
  let walls_in_col := count_walls_in_col solution pos.col
  if walls_in_col > (p.col_wall_counts pos.col : Int) then false
  else if pos.row = 7 ∧ walls_in_col ≠ (p.col_wall_counts pos.col : Int) then false
  else true

/-- The mask of the (in-range) orthogonal neighbors of a cell, built by the
same four `pos_set` calls `is_dead_end` and `is_invalid_monster` use. -/
def border_mask_of (pp : Pos) : Nat :=
  pos_set (pos_set (pos_set (pos_set 0
    { row := pp.row - 1, col := pp.col })
    { row := pp.row + 1, col := pp.col })
    { row := pp.row, col := pp.col - 1 })
    { row := pp.row, col := pp.col + 1 }

/-- `is_dead_end`: an in-range cell that is open (no wall, no monster, no
treasure) and has at most one open orthogonal neighbor. -/
def is_dead_end (p : Puzzle) (solution : Nat) (pp : Pos) : Bool :=
  if pp.row < 0 ∨ 8 ≤ pp.row ∨ pp.col < 0 ∨ 8 ≤ pp.col then false
  else
    let slot_mask := pos_set 0 pp
    if slot_mask &&& solution ≠ 0 then false
    else if slot_mask &&& p.treasures ≠ 0 ∨ slot_mask &&& p.monsters ≠ 0 then false
    else
      let border_mask := border_mask_of pp
      let border_walls := border_mask &&& solution
      count_set_bits border_walls ≥ count_set_bits border_mask - 1

/-- Constraint 4, `check_dead_ends`: no dead end at the toggled cell, the
cell above it, or the cell to its left. -/
def check_dead_ends (p : Puzzle) (solution : Nat) (slot : Int) : Bool :=
  let pp := pos_from_slot slot
  let above : Pos := { row := pp.row - 1, col := pp.col }
  let left : Pos := { row := pp.row, col := pp.col - 1 }
  if is_dead_end p solution above ∨ is_dead_end p solution left ∨
      is_dead_end p solution pp then false
  else true

/-- `is_invalid_monster`: an in-range monster cell is invalid if it borders a
monster or treasure, or if its in-range orthogonal neighbors are not exactly
"all walls but zero open" (wall count must equal neighbor count minus... the C
comparison is `count(border_walls) != count(border_mask) - 1`). -/
def is_invalid_monster (p : Puzzle) (solution : Nat) (pp : Pos) : Bool :=
  if pp.row < 0 ∨ 8 ≤ pp.row ∨ pp.col < 0 ∨ 8 ≤ pp.col then false
  else
    let slot_mask := pos_set 0 pp
    if slot_mask &&& p.monsters = 0 then false
    else
      let border_mask := border_mask_of pp
      let border_walls := border_mask &&& solution
      if border_mask &&& p.monsters ≠ 0 ∨ border_mask &&& p.treasures ≠ 0 then true
      else count_set_bits border_walls ≠ count_set_bits border_mask - 1

/-- Constraint 5, `check_monsters`: validate the monster above the toggled
cell; in the last row additionally the monster to the left, and at the final
cell the toggled cell itself. -/
def check_monsters (p : Puzzle) (solution : Nat) (slot : Int) : Bool :=
  let pp := pos_from_slot slot
  let above : Pos := { row := pp.row - 1, col := pp.col }
  if is_invalid_monster p solution above then false
  else if pp.row = 7 then
    let left : Pos := { row := pp.row, col := pp.col - 1 }
    if is_invalid_monster p solution left then false
    else if pp.col = 7 then
      if is_invalid_monster p solution pp then false else true
    else true
  else true

/-- The 2x2 block whose bottom-right corner is `pp`, as a grid mask. -/
def space_mask_of (pp : Pos) : Nat :=
  pos_set (pos_set (pos_set (pos_set 0
    pp)
    { row := pp.row, col := pp.col - 1 })
    { row := pp.row - 1, col := pp.col })
    { row := pp.row - 1, col := pp.col - 1 }

/-- The 12 cells surrounding the 2x2 block whose bottom-right corner is `pp`,
inspected for an exempting treasure by `check_wide_space`. -/
def space_neighbors_of (pp : Pos) : Nat :=
  pos_set (pos_set (pos_set (pos_set (pos_set (pos_set
    (pos_set (pos_set (pos_set (pos_set (pos_set (pos_set 0
    { row := pp.row - 2, col := pp.col - 2 })
    { row := pp.row - 2, col := pp.col - 1 })
    { row := pp.row - 2, col := pp.col })
    { row := pp.row - 2, col := pp.col + 1 })
    { row := pp.row - 1, col := pp.col - 2 })
    { row := pp.row - 1, col := pp.col + 1 })
    { row := pp.row, col := pp.col - 2 })
    { row := pp.row, col := pp.col + 1 })
    { row := pp.row + 1, col := pp.col - 2 })
    { row := pp.row + 1, col := pp.col - 1 })
    { row := pp.row + 1, col := pp.col })
    { row := pp.row + 1, col := pp.col + 1 }

/-- Constraint 6, `check_wide_space`: the 2x2 block whose bottom-right corner
is the toggled cell may not be fully open (no wall/monster/treasure) unless
one of the block's 12 surrounding cells is a treasure. -/
def check_wide_space (p : Puzzle) (solution : Nat) (slot : Int) : Bool :=
  let pp := pos_from_slot slot
  let space_mask := space_mask_of pp
  if count_set_bits space_mask = 4 ∧ space_mask &&& solution = 0 ∧
      space_mask &&& p.monsters = 0 ∧ space_mask &&& p.treasures = 0 then
    let neighbors := space_neighbors_of pp
    if neighbors &&& p.treasures ≠ 0 then true else false
  else true

/-- The 3x3 room interior centered at `center` (as a grid mask of the
in-range cells). -/
def room_mask_of (center : Pos) : Nat :=
  pos_set (pos_set (pos_set (pos_set (pos_set (pos_set (pos_set (pos_set
    (pos_set 0
    { row := center.row - 1, col := center.col - 1 })
    { row := center.row - 1, col := center.col })
    { row := center.row - 1, col := center.col + 1 })
    { row := center.row, col := center.col - 1 })
    { row := center.row, col := center.col })
    { row := center.row, col := center.col + 1 })
    { row := center.row + 1, col := center.col - 1 })
    { row := center.row + 1, col := center.col })
    { row := center.row + 1, col := center.col + 1 }

/-- The 12-cell border ring around the 3x3 room centered at `center` (as a
grid mask of the in-range cells). -/
def walls_mask_of (center : Pos) : Nat :=
  pos_set (pos_set (pos_set (pos_set (pos_set (pos_set (pos_set (pos_set
    (pos_set (pos_set (pos_set (pos_set 0
    { row := center.row - 2, col := center.col - 1 })
    { row := center.row - 2, col := center.col })
    { row := center.row - 2, col := center.col + 1 })
    { row := center.row + 2, col := center.col - 1 })
    { row := center.row + 2, col := center.col })
    { row := center.row + 2, col := center.col + 1 })
    { row := center.row - 1, col := center.col - 2 })
    { row := center.row, col := center.col - 2 })
    { row := center.row + 1, col := center.col - 2 })
    { row := center.row - 1, col := center.col + 2 })
    { row := center.row, col := center.col + 2 })
    { row := center.row + 1, col := center.col + 2 }

/-- `is_invalid_treasure_room`: one candidate 3x3 room for `treasure`,
centered at `center`, is invalid if it is not fully in bounds, its interior
touches a monster, another treasure or a wall, its border ring touches a
monster or treasure, or its border-opening count is wrong: exactly one
opening is required once the toggled cell is at-or-beyond the ring's
bottom-right corner in both coordinates (or is the final cell), otherwise at
least one opening is required. -/
def is_invalid_treasure_room (p : Puzzle) (solution : Nat) (treasure : Pos)
    (center : Pos) (slot : Int) : Bool :=
  let room_mask := room_mask_of center
  if count_set_bits room_mask ≠ 9 then true
  else
    let other_treasures := pos_unset p.treasures treasure
    if room_mask &&& p.monsters ≠ 0 ∨ room_mask &&& other_treasures ≠ 0 then true
    else if room_mask &&& solution ≠ 0 then true
    else
      let walls_mask := walls_mask_of center
      if walls_mask &&& p.monsters ≠ 0 ∨ walls_mask &&& p.treasures ≠ 0 then true
      else
        let checked_pos := pos_from_slot slot
        if (checked_pos.row ≥ center.row + 2 ∧ checked_pos.col ≥ center.col + 2) ∨
            (checked_pos.row = 7 ∧ checked_pos.col = 7) then
          if count_set_bits (walls_mask &&& solution) ≠ count_set_bits walls_mask - 1
          then true else false
        else
          if count_set_bits (walls_mask &&& solution) = count_set_bits walls_mask
          then true else false

/-- `is_invalid_treasure`: all nine candidate rooms (centers ranging over the
treasure cell and its 8 neighbors) are invalid. -/
def is_invalid_treasure (p : Puzzle) (solution : Nat) (treasure : Pos)
    (slot : Int) : Bool :=
  [treasure.row - 1, treasure.row, treasure.row + 1].all fun row =>
    [treasure.col - 1, treasure.col, treasure.col + 1].all fun col =>
      is_invalid_treasure_room p solution treasure { row := row, col := col } slot

/-- Constraint 7, `check_treasure_rooms`: every treasure cell must still have
at least one potentially valid room. -/
def check_treasure_rooms (p : Puzzle) (solution : Nat) (slot : Int) : Bool :=
  if p.treasures = 0 then true
  else
    (List.range 8).all fun row =>
      (List.range 8).all fun col =>
        let treasure_pos : Pos := { row := (row : Int), col := (col : Int) }
        if pos_is_set p.treasures treasure_pos ≠ 0 then
          !is_invalid_treasure p solution treasure_pos slot
        else true

/-- The conjunction of the seven constraint predicates exactly as `solve`
evaluates them after each toggle. -/
def check_constraints (p : Puzzle) (solution : Nat) (slot : Int) : Bool :=
  check_doesnt_overlap p solution && check_row_count p solution slot &&
  check_col_count p solution slot && check_dead_ends p solution slot &&
  check_monsters p solution slot && check_wide_space p solution slot &&
  check_treasure_rooms p solution slot

/-- The backtracking inner loop `while (slot >= 0 && !slot_is_set(solution,
slot)) slot--;`, with the Nat argument standing for `slot + 1`: returns the
largest slot `< n` whose bit is set, or `-1`. -/
def backtrack_n (solution : Nat) : Nat → Int
  | 0 => -1
  | k + 1 => if slot_is_set solution (k : Int) = 0 then backtrack_n solution k
             else (k : Int)

/-- The `solve` search loop.  State: stored solutions (the output array
prefix), `solution_i` (the exact count), the current grid and slot.  Each
fuel unit is one iteration of the C `while` loop; `none` means the fuel ran
out before the loop exited. -/
def solve_go (p : Puzzle) (max_solutions : Nat) :
    Nat → List Nat → Nat → Nat → Int → Option (List Nat × Nat)
  | 0, _, _, _, _ => none
  | fuel + 1, sols, cnt, solution, slot =>
    if slot < 0 ∨ 64 ≤ slot then some (sols, cnt)
    else
      let solution := if slot_is_set solution slot = 0 then slot_set solution slot
                      else slot_unset solution slot
      if check_constraints p solution slot then
        if slot < 63 then solve_go p max_solutions fuel sols cnt solution (slot + 1)
        else
          let sols := if cnt < max_solutions then sols ++ [solution] else sols
          solve_go p max_solutions fuel sols (cnt + 1) solution
            (backtrack_n solution (slot + 1).toNat)
      else
        solve_go p max_solutions fuel sols cnt solution
          (backtrack_n solution (slot + 1).toNat)

/-- `solve`: run the search from the empty grid at slot 0.  Returns the
stored solutions (at most `max_solutions` of them) and the exact total
count. -/
def solve (fuel : Nat) (p : Puzzle) (max_solutions : Nat) :
    Option (List Nat × Nat) :=
  solve_go p max_solutions fuel [] 0 0 0

/-- The four tile kinds the generator cycles through. -/
inductive Tile
  | EMPTY
  | WALL
  | MONSTER
  | TREASURE
deriving DecidableEq, Repr

/-- Pointwise update of the generator's `puzzle_tiles` array (embedded as a
total function; the program only reads indices 0..63). -/
def tiles_set (tiles : Int → Tile) (i : Int) (v : Tile) : Int → Tile :=
  fun j => if j = i then v else tiles j

/-- The generator's mutable search state: the tile-kind array, the
accumulating monster/treasure grid values of its puzzle record, the wall
grid, and the current slot. -/
structure GenState where
  tiles : Int → Tile
  monsters : Nat
  treasures : Nat
  solution : Nat
  slot : Int

/-- The generator's initial state: all tiles empty, empty grids, slot 0. -/
def gen_init : GenState :=
  { tiles := fun _ => Tile.EMPTY, monsters := 0, treasures := 0,
    solution := 0, slot := 0 }

/-- One tile-cycle transition of `generate`: undo the previous tile at the
current slot and choose the next option in the fixed order
EMPTY → TREASURE → MONSTER → WALL → EMPTY. -/
def cycle_step (st : GenState) : GenState :=
  match st.tiles st.slot with
  | Tile.TREASURE =>
    { st with tiles := tiles_set st.tiles st.slot Tile.MONSTER,
              treasures := slot_unset st.treasures st.slot,
              monsters := slot_set st.monsters st.slot }
  | Tile.MONSTER =>
    { st with tiles := tiles_set st.tiles st.slot Tile.WALL,
              monsters := slot_unset st.monsters st.slot,
              solution := slot_set st.solution st.slot }
  | Tile.WALL =>
    { st with tiles := tiles_set st.tiles st.slot Tile.EMPTY,
              solution := slot_unset st.solution st.slot }
  | Tile.EMPTY =>
    { st with tiles := tiles_set st.tiles st.slot Tile.TREASURE,
              treasures := slot_set st.treasures st.slot }

/-- The generator's interim puzzle record: zero count targets, the
accumulated monster/treasure grids. -/
def gen_puzzle (st : GenState) : Puzzle :=
  { row_wall_counts := fun _ => 0, col_wall_counts := fun _ => 0,
    monsters := st.monsters, treasures := st.treasures }

/-- The checks `generate` runs after each tile-cycle transition: monster
validity at the toggled cell itself, plus `check_doesnt_overlap`,
`check_dead_ends`, `check_monsters`, `check_wide_space` and
`check_treasure_rooms` (row/column counts do not exist yet). -/
def generate_checks (st : GenState) : Bool :=
  let p := gen_puzzle st
  let invalid_monster := !is_invalid_monster p st.solution (pos_from_slot st.slot)
  let overlap := check_doesnt_overlap p st.solution
  let dead_ends := check_dead_ends p st.solution st.slot
  let monsters := check_monsters p st.solution st.slot
  let wide_space := check_wide_space p st.solution st.slot
  let treasure := check_treasure_rooms p st.solution st.slot
  invalid_monster && overlap && dead_ends && monsters && wide_space && treasure

/-- The generator backtracking loop `while (slot >= 0 && puzzle_tiles[slot]
== 0) slot--;`, with the Nat argument standing for `slot + 1`. -/
def gen_backtrack_n (tiles : Int → Tile) : Nat → Int
  | 0 => -1
  | k + 1 => if tiles (k : Int) = Tile.EMPTY then gen_backtrack_n tiles k
             else (k : Int)

/-- The puzzle record `generate` derives from a completed valid grid: row and
column wall counts computed from the grid, plus the accumulated
monster/treasure grids. -/
def derived_puzzle (st : GenState) : Puzzle :=
  { row_wall_counts := fun i => (count_walls_in_row st.solution i).toNat
    col_wall_counts := fun i => (count_walls_in_col st.solution i).toNat
    monsters := st.monsters
    treasures := st.treasures }

/-- A generated puzzle: the derived record and its solution count. -/
structure GeneratedPuzzle where
  puzzle : Puzzle
  num_solutions : Nat

/-- The `generate` search loop.  `solve_fuel` is the fuel handed to each
inner `solve` call (the C call always terminates; `none` here only means the
chosen fuel was insufficient).  Each outer fuel unit is one iteration of the
C `while` loop. -/
def generate_go (solve_fuel : Nat) (max_puzzles : Nat) :
    Nat → List GeneratedPuzzle → Nat → GenState →
    Option (List GeneratedPuzzle × Nat)
  | 0, _, _, _ => none
  | fuel + 1, out, cnt, st =>
    if st.slot < 0 ∨ 64 ≤ st.slot then some (out, cnt)
    else
      let st := cycle_step st
      if generate_checks st then
        if st.slot < 63 then
          generate_go solve_fuel max_puzzles fuel out cnt { st with slot := st.slot + 1 }
        else
          let valid_puzzle := derived_puzzle st
          match solve solve_fuel valid_puzzle 128 with
          | none => none
          | some (_, num_solutions) =>
            if cnt < max_puzzles then
              generate_go solve_fuel max_puzzles fuel
                (out ++ [{ puzzle := valid_puzzle, num_solutions := num_solutions }])
                (cnt + 1)
                { st with slot := gen_backtrack_n st.tiles (st.slot + 1).toNat }
            else some (out, cnt)
      else
        generate_go solve_fuel max_puzzles fuel out cnt
          { st with slot := gen_backtrack_n st.tiles (st.slot + 1).toNat }

/-- `generate`: run the puzzle-space search from the all-empty state. -/
def generate (fuel solve_fuel : Nat) (max_puzzles : Nat) :
    Option (List GeneratedPuzzle × Nat) :=
  generate_go solve_fuel max_puzzles fuel [] 0 gen_init

/-! ## Bit-level infrastructure

`prefMask k` is the mask of the cells at slots `0..k` (bit positions
`63 - k .. 63`); `trunc k m` restricts a grid value to those cells.  These
are specification-side notions used to state what the searches have decided
so far; they do not appear in the program. -/

/-- Mask of the bits for slots `0..k` (all 64 bits when `k ≥ 63`, empty when
`k < 0`). -/
def prefMask (k : Int) : Nat := ((2 ^ 64 - 1) <<< (63 - k).toNat) &&& (2 ^ 64 - 1)

/-- Restriction of a grid value to the cells at slots `0..k`. -/
def trunc (k : Int) (m : Nat) : Nat := m &&& prefMask k

/-- All cells at slots beyond `k` are undecided (zero) in `m`. -/
def high_clear (m : Nat) (k : Int) : Prop := trunc k m = m

/-! ## The all-zero puzzle (claim C5) -/

/-- The puzzle record with all row/column targets 0 and no monsters or
treasures. -/
def zero_puzzle : Puzzle :=
  { row_wall_counts := fun _ => 0, col_wall_counts := fun _ => 0,
    monsters := 0, treasures := 0 }

/-! ## The generator's per-step checks (claim C3) -/

/-- A generator state — a wall just placed at slot 0 of an otherwise empty
board — on which the generator's per-step checks pass but the full
seven-predicate conjunction fails (the interim zero row target is
exceeded). -/
def gen_state_wall0 : GenState :=
  { tiles := fun j => if j = 0 then Tile.WALL else Tile.EMPTY
    monsters := 0, treasures := 0, solution := slot_set 0 0, slot := 0 }

/-- The arguments of a puzzle with the same position listed both as a
monster and as a treasure. -/
def overlap_args : PuzzleArgs :=
  { row_wall_counts := fun _ => 0, col_wall_counts := fun _ => 0,
    monsters := [{ row := 0, col := 0 }], treasures := [{ row := 0, col := 0 }] }

/-- Witness for `puzzle_disjoint` on disjoint singleton lists. -/
def disjoint_args : PuzzleArgs :=
  { row_wall_counts := fun _ => 0, col_wall_counts := fun _ => 0,
    monsters := [{ row := 0, col := 0 }], treasures := [{ row := 1, col := 1 }] }

/-! ## The treasure-room border rule (claim C7) -/

/-- Comparison definition following the specification's words: identical to
`is_invalid_treasure_room` except for the branch condition, which the
specification states as "the toggled cell is strictly beyond the room's
bottom-right corner in slot order, or is the grid's final cell" (the room's
bottom-right corner being the interior cell at `(center.row + 1,
center.col + 1)`, i.e. slot `(center.row + 1) * 8 + center.col + 1`). -/
def spec_invalid_treasure_room (p : Puzzle) (solution : Nat) (treasure : Pos)
    (center : Pos) (slot : Int) : Bool :=
  let room_mask := room_mask_of center
  if count_set_bits room_mask ≠ 9 then true
  else
    let other_treasures := pos_unset p.treasures treasure
    if room_mask &&& p.monsters ≠ 0 ∨ room_mask &&& other_treasures ≠ 0 then true
    else if room_mask &&& solution ≠ 0 then true
    else
      let walls_mask := walls_mask_of center
      if walls_mask &&& p.monsters ≠ 0 ∨ walls_mask &&& p.treasures ≠ 0 then true
      else
        if slot > (center.row + 1) * 8 + (center.col + 1) ∨ slot = 63 then
          if count_set_bits (walls_mask &&& solution) ≠ count_set_bits walls_mask - 1
          then true else false
        else
          if count_set_bits (walls_mask &&& solution) = count_set_bits walls_mask
          then true else false

/-- A puzzle with a single treasure at (1,1) and no monsters. -/
def c7_puzzle : Puzzle :=
  { row_wall_counts := fun _ => 0, col_wall_counts := fun _ => 0,
    monsters := 0, treasures := pos_set 0 ⟨1, 1⟩ }

/-- Walls on 4 of the 6 in-range border cells of the room centered at (1,1):
slots 24, 25, 26 (row 3) and 3 (cell (0,3)); the border has two openings. -/
def c7_solution : Nat := slot_set (slot_set (slot_set (slot_set 0 24) 25) 26) 3

/-! ## The generator's state invariant (claim C10) -/

/-- The generator's state invariant: the wall, monster and treasure grid
values stay below 2^64 and pairwise disjoint, and for every slot the bit for
that slot is set in exactly the grid corresponding to the slot's tile tag
(and in none of them when the tag is EMPTY). -/
def GenInv (st : GenState) : Prop :=
  st.solution < 2 ^ 64 ∧ st.monsters < 2 ^ 64 ∧ st.treasures < 2 ^ 64 ∧
  st.solution &&& st.monsters = 0 ∧ st.solution &&& st.treasures = 0 ∧
  st.monsters &&& st.treasures = 0 ∧
  ∀ i : Fin 64,
    st.solution.testBit (63 - (i : Nat)) = decide (st.tiles ((i : Nat) : Int) = Tile.WALL) ∧
    st.monsters.testBit (63 - (i : Nat)) = decide (st.tiles ((i : Nat) : Int) = Tile.MONSTER) ∧
    st.treasures.testBit (63 - (i : Nat)) = decide (st.tiles ((i : Nat) : Int) = Tile.TREASURE)

/-! ## Capacity handling of `solve` (claim C4)

`solve_all_go` is the same loop as `solve_go` but records every found
solution; `solve_go` is exactly this with the stored list truncated at the
capacity and the count kept. -/

/-- The `solve` loop with an unbounded output list (specification side). -/
def solve_all_go (p : Puzzle) : Nat → Nat → Int → Option (List Nat)
  | 0, _, _ => none
  | fuel + 1, solution, slot =>
    if slot < 0 ∨ 64 ≤ slot then some []
    else
      let solution := if slot_is_set solution slot = 0 then slot_set solution slot
                      else slot_unset solution slot
      if check_constraints p solution slot then
        if slot < 63 then solve_all_go p fuel solution (slot + 1)
        else
          (solve_all_go p fuel solution (backtrack_n solution (slot + 1).toNat)).map
            (fun E => solution :: E)
      else
        solve_all_go p fuel solution (backtrack_n solution (slot + 1).toNat)

/-- All 7 constraints pass at every slot `k` on the truncation of `g` to
slots `0..k` — what the solve loop guarantees for every recorded grid. -/
def prefix_checks (p : Puzzle) (g : Nat) : Prop :=
  ∀ k : Int, 0 ≤ k → k < 64 → check_constraints p (trunc k g) k = true

/-! ## Generator soundness and the solve round-trip (claim C2) -/

/-- A generator state with given grids and slot (the tile array is irrelevant
to `generate_checks` and `derived_puzzle`, which read only the grids). -/
def gen_state_at (M T S : Nat) (k : Int) : GenState :=
  { tiles := fun _ => Tile.EMPTY, monsters := M, treasures := T,
    solution := S, slot := k }

/-- The interim zero-target puzzle record the generator checks against. -/
def gen_record (M T : Nat) : Puzzle :=
  { row_wall_counts := fun _ => 0, col_wall_counts := fun _ => 0,
    monsters := M, treasures := T }

theorem prefMask_testBit (k : Int) (j : Nat) :
    (prefMask k).testBit j = (decide ((63 - k).toNat ≤ j) && decide (j < 64)) := by
  unfold prefMask
  rw [Nat.testBit_and, Nat.testBit_shiftLeft, Nat.testBit_two_pow_sub_one,
    Nat.testBit_two_pow_sub_one]
  by_cases h1 : (63 - k).toNat ≤ j <;> by_cases h2 : j < 64 <;>
    simp [h1, h2] <;> omega

theorem prefMask_testBit_slot (k i : Int) (h0 : 0 ≤ i) (h1 : i < 64) :
    (prefMask k).testBit (63 - i).toNat = decide (i ≤ k) := by
  rw [prefMask_testBit]
  by_cases h : i ≤ k <;> simp [h] <;> omega

theorem testBit_high (m j : Nat) (hm : m < 2 ^ 64) (hj : 64 ≤ j) :
    m.testBit j = false := by
  have : m < 2 ^ j := lt_of_lt_of_le hm (Nat.pow_le_pow_right (by norm_num) hj)
  exact Nat.testBit_lt_two_pow this

theorem and_two_pow_of_testBit {m b : Nat} (h : m.testBit b = true) :
    m &&& 2 ^ b = 2 ^ b := by
  apply Nat.eq_of_testBit_eq; intro j
  rw [Nat.testBit_and, Nat.testBit_two_pow]
  by_cases hj : b = j
  · subst hj; simp [h]
  · simp [hj]

theorem and_two_pow_of_not_testBit {m b : Nat} (h : m.testBit b = false) :
    m &&& 2 ^ b = 0 := by
  apply Nat.eq_of_testBit_eq; intro j
  rw [Nat.testBit_and, Nat.testBit_two_pow]
  by_cases hj : b = j
  · subst hj; simp [h]
  · simp [hj]

theorem land_pref_or (a b : Nat) (k : Int) (ha : a &&& prefMask k = a)
    (hb : b &&& prefMask k = b) : (a ||| b) &&& prefMask k = a ||| b := by
  rw [Nat.and_distrib_right, ha, hb]

/-- `pos_set` preserves containment in `prefMask k` as long as the position,
when in range, lies at a slot `≤ k`. -/
theorem land_pref_pos_set (a : Nat) (q : Pos) (k : Int)
    (ha : a &&& prefMask k = a)
    (hq : 0 ≤ q.row → q.row < 8 → 0 ≤ q.col → q.col < 8 → q.row * 8 + q.col ≤ k) :
    pos_set a q &&& prefMask k = pos_set a q := by
  unfold pos_set
  split
  · exact ha
  · rename_i hrange
    rw [Nat.one_shiftLeft]
    apply land_pref_or _ _ _ ha
    rw [Nat.and_comm]
    apply and_two_pow_of_testBit
    rw [prefMask_testBit_slot k (q.row * 8 + q.col) (by omega) (by omega)]
    simp only [decide_eq_true_eq]
    exact hq (by omega) (by omega) (by omega) (by omega)

theorem zero_land_pref (k : Int) : (0 : Nat) &&& prefMask k = 0 := Nat.zero_and _

/-- If `mask` only has bits at slots `≤ k`, it cannot tell `trunc k g` from
`g`. -/
theorem and_trunc_eq (mask g : Nat) (k : Int) (h : mask &&& prefMask k = mask) :
    mask &&& trunc k g = mask &&& g := by
  unfold trunc
  calc mask &&& (g &&& prefMask k) = mask &&& (prefMask k &&& g) := by
        rw [Nat.and_comm g]
    _ = mask &&& prefMask k &&& g := by rw [Nat.and_assoc]
    _ = mask &&& g := by rw [h]

theorem trunc_and_eq (mask g : Nat) (k : Int) (h : mask &&& prefMask k = mask) :
    trunc k g &&& mask = g &&& mask := by
  rw [Nat.and_comm _ mask, Nat.and_comm _ mask]; exact and_trunc_eq mask g k h

theorem trunc_trunc (k k' : Int) (m : Nat) (h : k ≤ k') :
    trunc k (trunc k' m) = trunc k m := by
  unfold trunc
  rw [Nat.and_assoc]
  congr 1
  apply Nat.eq_of_testBit_eq; intro j
  rw [Nat.testBit_and, prefMask_testBit, prefMask_testBit]
  by_cases h1 : (63 - k).toNat ≤ j <;> by_cases h2 : j < 64 <;>
    by_cases h3 : (63 - k').toNat ≤ j <;> simp [h1, h2, h3] <;> omega

theorem trunc_63 (m : Nat) (hm : m < 2 ^ 64) : trunc 63 m = m := by
  unfold trunc prefMask
  have : ((63 : Int) - 63).toNat = 0 := by norm_num
  rw [this, Nat.shiftLeft_zero, Nat.and_self, Nat.and_pow_two_sub_one_eq_mod,
    Nat.mod_eq_of_lt hm]

theorem trunc_neg (k : Int) (m : Nat) (h : k < 0) : trunc k m = 0 := by
  apply Nat.eq_of_testBit_eq; intro j
  rw [Nat.zero_testBit]
  unfold trunc
  rw [Nat.testBit_and, prefMask_testBit]
  by_cases h1 : (63 - k).toNat ≤ j <;> by_cases h2 : j < 64 <;>
    simp [h1, h2] <;> omega

theorem trunc_le (k : Int) (m : Nat) : trunc k m ≤ m := Nat.and_le_left

theorem trunc_testBit (k : Int) (m : Nat) (j : Nat) :
    (trunc k m).testBit j =
      (m.testBit j && (decide ((63 - k).toNat ≤ j) && decide (j < 64))) := by
  unfold trunc
  rw [Nat.testBit_and, prefMask_testBit]

/-! ## Toggle lemmas -/

theorem slot_set_eq (m : Nat) (i : Int) (h0 : 0 ≤ i) (h1 : i < 64) :
    slot_set m i = m ||| 2 ^ (63 - i).toNat := by
  unfold slot_set
  rw [if_neg (by omega), Nat.one_shiftLeft]

theorem slot_unset_eq (m : Nat) (i : Int) (h0 : 0 ≤ i) (h1 : i < 64) :
    slot_unset m i = m &&& (2 ^ (63 - i).toNat ^^^ (2 ^ 64 - 1)) := by
  unfold slot_unset
  rw [if_neg (by omega), Nat.one_shiftLeft]

theorem slot_is_set_eq (m : Nat) (i : Int) (h0 : 0 ≤ i) (h1 : i < 64) :
    slot_is_set m i = m &&& 2 ^ (63 - i).toNat := by
  unfold slot_is_set
  rw [if_neg (by omega), Nat.one_shiftLeft]

theorem slot_set_testBit (m : Nat) (i : Int) (h0 : 0 ≤ i) (h1 : i < 64) (j : Nat) :
    (slot_set m i).testBit j = (m.testBit j || decide ((63 - i).toNat = j)) := by
  rw [slot_set_eq m i h0 h1, Nat.testBit_or, Nat.testBit_two_pow]

theorem slot_unset_testBit (m : Nat) (i : Int) (hm : m < 2 ^ 64)
    (h0 : 0 ≤ i) (h1 : i < 64) (j : Nat) :
    (slot_unset m i).testBit j = (m.testBit j && !decide ((63 - i).toNat = j)) := by
  rw [slot_unset_eq m i h0 h1, Nat.testBit_and, Nat.testBit_xor, Nat.testBit_two_pow,
    Nat.testBit_two_pow_sub_one]
  by_cases hj : j < 64
  · simp [hj]
  · rw [testBit_high m j hm (by omega)]
    simp

theorem slot_is_set_zero_iff (m : Nat) (i : Int) (h0 : 0 ≤ i) (h1 : i < 64) :
    slot_is_set m i = 0 ↔ m.testBit (63 - i).toNat = false := by
  rw [slot_is_set_eq m i h0 h1]
  cases h : m.testBit (63 - i).toNat
  · rw [and_two_pow_of_not_testBit h]; simp
  · rw [and_two_pow_of_testBit h]; simp [Nat.pow_eq_zero]

theorem slot_set_lt (m : Nat) (i : Int) (hm : m < 2 ^ 64) : slot_set m i < 2 ^ 64 := by
  unfold slot_set
  split
  · exact hm
  · rw [Nat.one_shiftLeft]
    exact Nat.or_lt_two_pow hm (Nat.pow_lt_pow_right (by norm_num) (by omega))

theorem slot_unset_lt (m : Nat) (i : Int) (hm : m < 2 ^ 64) : slot_unset m i < 2 ^ 64 := by
  unfold slot_unset
  split
  · exact hm
  · exact lt_of_le_of_lt Nat.and_le_left hm

theorem trunc_slot_set_of_lt (m : Nat) (k i : Int) (h0 : 0 ≤ i) (h1 : i < 64)
    (hk : k < i) : trunc k (slot_set m i) = trunc k m := by
  apply Nat.eq_of_testBit_eq; intro j
  rw [trunc_testBit, trunc_testBit, slot_set_testBit m i h0 h1]
  by_cases hj : (63 - i).toNat = j
  · have hA : decide ((63 - k).toNat ≤ j) = false := by
      simp only [decide_eq_false_iff_not]; omega
    rw [hA]; simp
  · simp [hj]

theorem trunc_slot_unset_of_lt (m : Nat) (k i : Int) (hm : m < 2 ^ 64)
    (h0 : 0 ≤ i) (h1 : i < 64) (hk : k < i) :
    trunc k (slot_unset m i) = trunc k m := by
  apply Nat.eq_of_testBit_eq; intro j
  rw [trunc_testBit, trunc_testBit, slot_unset_testBit m i hm h0 h1]
  by_cases hj : (63 - i).toNat = j
  · have hA : decide ((63 - k).toNat ≤ j) = false := by
      simp only [decide_eq_false_iff_not]; omega
    rw [hA]; simp
  · simp [hj]

theorem high_clear_testBit (m : Nat) (k : Int) (h : high_clear m k) (j : Nat)
    (hj : m.testBit j = true) : (63 - k).toNat ≤ j ∧ j < 64 := by
  have h2 := congrArg (fun t => t.testBit j) h
  simp only [trunc_testBit, hj, Bool.true_and] at h2
  rw [Bool.and_eq_true, decide_eq_true_eq, decide_eq_true_eq] at h2
  exact h2

theorem high_clear_lt (m : Nat) (k : Int) (hm : high_clear m k) : m < 2 ^ 64 := by
  unfold high_clear trunc at hm
  have h1 : m ≤ prefMask k := hm ▸ Nat.and_le_right
  have h2 : prefMask k ≤ 2 ^ 64 - 1 := Nat.and_le_right
  omega

theorem trunc_trunc_rev (k kk : Int) (m : Nat) (h : k ≤ kk) :
    trunc kk (trunc k m) = trunc k m := by
  unfold trunc
  rw [Nat.and_assoc]
  congr 1
  apply Nat.eq_of_testBit_eq; intro j
  rw [Nat.testBit_and, prefMask_testBit, prefMask_testBit]
  by_cases h1 : (63 - k).toNat ≤ j <;> by_cases h2 : j < 64 <;>
    by_cases h3 : (63 - kk).toNat ≤ j <;> simp [h1, h2, h3] <;> omega

theorem high_clear_mono (m : Nat) (k kk : Int) (h : k ≤ kk) (hm : high_clear m k) :
    high_clear m kk := by
  unfold high_clear at *
  rw [← hm, trunc_trunc_rev k kk m h, hm]

/-! ## Population-count theory

The C loop clears the lowest set bit once per iteration; these lemmas relate
`count_set_bits` to the binary decomposition and prove monotonicity under
bitwise subset, which is what the constraint-transfer arguments need. -/

theorem csb_go_indep (n : Nat) : ∀ f, n < f → csb_go f n = count_set_bits n := by
  induction n using Nat.strong_induction_on with
  | _ n ih =>
    intro f hf
    match f, hf with
    | f + 1, _ =>
      by_cases hn : n = 0
      · subst hn
        simp [csb_go, count_set_bits]
      · have hlt : n &&& (n - 1) < n := lt_of_le_of_lt Nat.and_le_right (by omega)
        have e1 : csb_go (f + 1) n = csb_go f (n &&& (n - 1)) + 1 := by
          simp [csb_go, hn]
        have e2 : count_set_bits n = csb_go n (n &&& (n - 1)) + 1 := by
          unfold count_set_bits
          simp [csb_go, hn]
        rw [e1, e2]
        by_cases hf0 : f = 0
        · omega
        · rw [ih _ hlt f (by omega), ih _ hlt n (by omega)]

theorem csb_zero : count_set_bits 0 = 0 := rfl

theorem csb_rec (n : Nat) (hn : n ≠ 0) :
    count_set_bits n = count_set_bits (n &&& (n - 1)) + 1 := by
  have hlt : n &&& (n - 1) < n := lt_of_le_of_lt Nat.and_le_right (by omega)
  conv_lhs => rw [count_set_bits]
  simp only [csb_go, hn, if_false]
  rw [csb_go_indep _ n hlt]

theorem and_pred_even (m : Nat) (hm : m ≠ 0) :
    (2 * m) &&& (2 * m - 1) = 2 * (m &&& (m - 1)) := by
  apply Nat.eq_of_testBit_eq; intro j
  cases j with
  | zero =>
    rw [Nat.testBit_and, Nat.testBit_zero, Nat.testBit_zero, Nat.testBit_zero]
    have h1 : (2 * m) % 2 = 0 := by omega
    have h2 : (2 * (m &&& (m - 1))) % 2 = 0 := by omega
    simp [h1, h2]
  | succ j =>
    rw [Nat.testBit_and, Nat.testBit_succ, Nat.testBit_succ, Nat.testBit_succ]
    have h1 : 2 * m / 2 = m := by omega
    have h2 : (2 * m - 1) / 2 = m - 1 := by omega
    have h3 : 2 * (m &&& (m - 1)) / 2 = m &&& (m - 1) := by omega
    rw [h1, h2, h3, Nat.testBit_and]

theorem and_pred_odd (m : Nat) : (2 * m + 1) &&& (2 * m) = 2 * m := by
  apply Nat.eq_of_testBit_eq; intro j
  cases j with
  | zero =>
    rw [Nat.testBit_and, Nat.testBit_zero, Nat.testBit_zero]
    have h1 : (2 * m) % 2 = 0 := by omega
    simp [h1]
  | succ j =>
    rw [Nat.testBit_and, Nat.testBit_succ, Nat.testBit_succ]
    have h1 : 2 * m / 2 = m := by omega
    have h2 : (2 * m + 1) / 2 = m := by omega
    rw [h1, h2, Bool.and_self]

theorem csb_two_mul (m : Nat) : count_set_bits (2 * m) = count_set_bits m := by
  induction m using Nat.strong_induction_on with
  | _ m ih =>
    by_cases hm : m = 0
    · subst hm; rfl
    · have hlt : m &&& (m - 1) < m := lt_of_le_of_lt Nat.and_le_right (by omega)
      rw [csb_rec (2 * m) (by omega), and_pred_even m hm, ih _ hlt,
        ← csb_rec m hm]

theorem csb_two_mul_add_one (m : Nat) :
    count_set_bits (2 * m + 1) = count_set_bits m + 1 := by
  rw [csb_rec (2 * m + 1) (by omega)]
  have h1 : 2 * m + 1 - 1 = 2 * m := by omega
  rw [h1, and_pred_odd, csb_two_mul]

theorem csb_div2 (n : Nat) :
    count_set_bits n = count_set_bits (n / 2) + ((n % 2 : Nat) : Int) := by
  by_cases h : n % 2 = 0
  · have e : n = 2 * (n / 2) := by omega
    conv_lhs => rw [e]
    rw [csb_two_mul, h]
    simp
  · have e : n = 2 * (n / 2) + 1 := by omega
    conv_lhs => rw [e]
    rw [csb_two_mul_add_one]
    have h1 : n % 2 = 1 := by omega
    rw [h1]
    simp

theorem sub_and_div2 (x y : Nat) (h : x &&& y = x) :
    (x / 2) &&& (y / 2) = x / 2 ∧ x % 2 ≤ y % 2 := by
  constructor
  · apply Nat.eq_of_testBit_eq; intro j
    have hj := congrArg (fun t => t.testBit (j + 1)) h
    simp only [Nat.testBit_and] at hj
    rw [Nat.testBit_and, ← Nat.testBit_succ, ← Nat.testBit_succ]
    simpa using hj
  · have h0 : (x &&& y).testBit 0 = x.testBit 0 := congrArg (fun t => t.testBit 0) h
    rw [Nat.testBit_and] at h0
    rw [Nat.testBit_zero, Nat.testBit_zero] at h0
    by_cases hx : x % 2 = 1
    · simp [hx] at h0
      omega
    · omega

theorem csb_mono (y : Nat) : ∀ x, x &&& y = x →
    count_set_bits x ≤ count_set_bits y := by
  induction y using Nat.strong_induction_on with
  | _ y ih =>
    intro x hx
    by_cases hy : y = 0
    · subst hy
      have hx0 : x = 0 := by rw [← hx, Nat.and_zero]
      subst hx0; exact le_refl _
    · obtain ⟨h1, h2⟩ := sub_and_div2 x y hx
      rw [csb_div2 x, csb_div2 y]
      have hih := ih (y / 2) (by omega) (x / 2) h1
      have h2i : ((x % 2 : Nat) : Int) ≤ ((y % 2 : Nat) : Int) := by exact_mod_cast h2
      omega

theorem csb_nonneg (n : Nat) : 0 ≤ count_set_bits n := by
  induction n using Nat.strong_induction_on with
  | _ n ih =>
    by_cases hn : n = 0
    · subst hn; rw [csb_zero]
    · have hlt : n &&& (n - 1) < n := lt_of_le_of_lt Nat.and_le_right (by omega)
      rw [csb_rec n hn]
      have := ih _ hlt
      omega

/-! ## Grid Coordinate Model semantics (claim C9) -/

theorem pos_set_eq_slot_set (m : Nat) (q : Pos)
    (h1 : 0 ≤ q.row) (h2 : q.row < 8) (h3 : 0 ≤ q.col) (h4 : q.col < 8) :
    pos_set m q = slot_set m (q.row * 8 + q.col) := by
  unfold pos_set slot_set
  rw [if_neg (by omega), if_neg (by omega)]

theorem pos_unset_eq_slot_unset (m : Nat) (q : Pos)
    (h1 : 0 ≤ q.row) (h2 : q.row < 8) (h3 : 0 ≤ q.col) (h4 : q.col < 8) :
    pos_unset m q = slot_unset m (q.row * 8 + q.col) := by
  unfold pos_unset slot_unset
  rw [if_neg (by omega), if_neg (by omega)]

theorem pos_is_set_eq_slot_is_set (m : Nat) (q : Pos)
    (h1 : 0 ≤ q.row) (h2 : q.row < 8) (h3 : 0 ≤ q.col) (h4 : q.col < 8) :
    pos_is_set m q = slot_is_set m (q.row * 8 + q.col) := by
  unfold pos_is_set slot_is_set
  rw [if_neg (by omega), if_neg (by omega)]

/-- C9: the set and clear operations return the grid unchanged when the slot
is outside 0..63 or the position outside the 8x8 board, and the test
operation returns 0 (false) there; in range, set/clear/test touch exactly
the one bit at position `63 - (row*8 + col)` (respectively `63 - slot`). -/
theorem grid_ops_spec (m : Nat) (hm : m < 2 ^ 64) (slot : Int) (q : Pos) :
    (¬(0 ≤ slot ∧ slot < 64) →
      slot_set m slot = m ∧ slot_unset m slot = m ∧ slot_is_set m slot = 0) ∧
    (¬(0 ≤ q.row ∧ q.row < 8 ∧ 0 ≤ q.col ∧ q.col < 8) →
      pos_set m q = m ∧ pos_unset m q = m ∧ pos_is_set m q = 0) ∧
    (0 ≤ slot → slot < 64 →
      (∀ j : Nat,
        (slot_set m slot).testBit j = (m.testBit j || decide ((63 - slot).toNat = j)) ∧
        (slot_unset m slot).testBit j =
          (m.testBit j && !decide ((63 - slot).toNat = j))) ∧
      (slot_is_set m slot ≠ 0 ↔ m.testBit (63 - slot).toNat = true)) ∧
    (0 ≤ q.row → q.row < 8 → 0 ≤ q.col → q.col < 8 →
      (∀ j : Nat,
        (pos_set m q).testBit j =
          (m.testBit j || decide ((63 - (q.row * 8 + q.col)).toNat = j)) ∧
        (pos_unset m q).testBit j =
          (m.testBit j && !decide ((63 - (q.row * 8 + q.col)).toNat = j))) ∧
      (pos_is_set m q ≠ 0 ↔ m.testBit (63 - (q.row * 8 + q.col)).toNat = true)) := by
  refine ⟨?_, ?_, ?_, ?_⟩
  · intro h
    unfold slot_set slot_unset slot_is_set
    rw [if_pos (by omega), if_pos (by omega), if_pos (by omega)]
    exact ⟨rfl, rfl, rfl⟩
  · intro h
    unfold pos_set pos_unset pos_is_set
    rw [if_pos (by omega), if_pos (by omega), if_pos (by omega)]
    exact ⟨rfl, rfl, rfl⟩
  · intro h0 h1
    refine ⟨fun j => ⟨slot_set_testBit m slot h0 h1 j,
      slot_unset_testBit m slot hm h0 h1 j⟩, ?_⟩
    simp only [Ne, slot_is_set_zero_iff m slot h0 h1]
    simp
  · intro h1 h2 h3 h4
    rw [pos_set_eq_slot_set m q h1 h2 h3 h4, pos_unset_eq_slot_unset m q h1 h2 h3 h4,
      pos_is_set_eq_slot_is_set m q h1 h2 h3 h4]
    refine ⟨fun j => ⟨slot_set_testBit m (q.row * 8 + q.col) (by omega) (by omega) j,
      slot_unset_testBit m (q.row * 8 + q.col) hm (by omega) (by omega) j⟩, ?_⟩
    simp only [Ne, slot_is_set_zero_iff m (q.row * 8 + q.col) (by omega) (by omega)]
    simp

/-- Witness for `grid_ops_spec` at `m = 5`, `slot = 3`, `q = (2, 4)`. -/
theorem grid_ops_spec_witness :
    (5 : Nat) < 2 ^ 64 ∧
    ((¬(0 ≤ (3 : Int) ∧ (3 : Int) < 64) →
      slot_set 5 3 = 5 ∧ slot_unset 5 3 = 5 ∧ slot_is_set 5 3 = 0) ∧
    (¬(0 ≤ (Pos.mk 2 4).row ∧ (Pos.mk 2 4).row < 8 ∧
        0 ≤ (Pos.mk 2 4).col ∧ (Pos.mk 2 4).col < 8) →
      pos_set 5 (Pos.mk 2 4) = 5 ∧ pos_unset 5 (Pos.mk 2 4) = 5 ∧
        pos_is_set 5 (Pos.mk 2 4) = 0) ∧
    (0 ≤ (3 : Int) → (3 : Int) < 64 →
      (∀ j : Nat,
        (slot_set 5 3).testBit j = (Nat.testBit 5 j || decide ((63 - (3 : Int)).toNat = j)) ∧
        (slot_unset 5 3).testBit j =
          (Nat.testBit 5 j && !decide ((63 - (3 : Int)).toNat = j))) ∧
      (slot_is_set 5 3 ≠ 0 ↔ Nat.testBit 5 (63 - (3 : Int)).toNat = true)) ∧
    (0 ≤ (Pos.mk 2 4).row → (Pos.mk 2 4).row < 8 →
        0 ≤ (Pos.mk 2 4).col → (Pos.mk 2 4).col < 8 →
      (∀ j : Nat,
        (pos_set 5 (Pos.mk 2 4)).testBit j =
          (Nat.testBit 5 j ||
            decide ((63 - ((Pos.mk 2 4).row * 8 + (Pos.mk 2 4).col)).toNat = j)) ∧
        (pos_unset 5 (Pos.mk 2 4)).testBit j =
          (Nat.testBit 5 j &&
            !decide ((63 - ((Pos.mk 2 4).row * 8 + (Pos.mk 2 4).col)).toNat = j))) ∧
      (pos_is_set 5 (Pos.mk 2 4) ≠ 0 ↔
        Nat.testBit 5 (63 - ((Pos.mk 2 4).row * 8 + (Pos.mk 2 4).col)).toNat = true))) :=
  ⟨by norm_num, grid_ops_spec 5 (by norm_num) 3 (Pos.mk 2 4)⟩

/-- C5 counterexample: on the all-zero puzzle record the terminating run of
`solve` does not return the all-open grid as its single solution. -/
theorem solve_zero_puzzle_not_one : solve 300 zero_puzzle 4 ≠ some ([0], 1) := by
  decide

/-- C5 amended: the all-zero puzzle record has exactly zero solutions — the
all-open grid that the zero targets force is itself rejected by the
wide-open-space predicate (for example at slot 9, the 2x2 block at rows 0-1,
columns 0-1 is fully open with no exempting treasure). -/
theorem solve_zero_puzzle : solve 300 zero_puzzle 4 = some ([], 0) ∧
    check_wide_space zero_puzzle 0 9 = false := by
  decide

/-- C3 counterexample: the generator's per-step acceptance test is not the
full seven-predicate conjunction — here the generator accepts while
`check_constraints` (which includes the row-count predicate) fails. -/
theorem generate_checks_not_all_seven :
    generate_checks gen_state_wall0 = true ∧
    check_constraints (gen_puzzle gen_state_wall0) gen_state_wall0.solution
      gen_state_wall0.slot = false := by
  decide

/-- C3 amended: after every tile-cycle step the generator evaluates exactly
five of the seven constraint predicates — no-overlap, dead-end, monster,
wide-space and treasure-room — plus a monster-validity check at the toggled
cell itself, and prunes if any fails; the row-count and column-count
predicates are not evaluated during generation (wall-count targets are
derived only from completed grids). -/
theorem generate_checks_spec (st : GenState) :
    generate_checks st = true ↔
      (is_invalid_monster (gen_puzzle st) st.solution (pos_from_slot st.slot) = false ∧
       check_doesnt_overlap (gen_puzzle st) st.solution = true ∧
       check_dead_ends (gen_puzzle st) st.solution st.slot = true ∧
       check_monsters (gen_puzzle st) st.solution st.slot = true ∧
       check_wide_space (gen_puzzle st) st.solution st.slot = true ∧
       check_treasure_rooms (gen_puzzle st) st.solution st.slot = true) := by
  unfold generate_checks
  simp only [Bool.and_eq_true, Bool.not_eq_true']
  tauto

/-! ## Puzzle-record construction (claim C6) -/

theorem pos_set_testBit_mono (acc : Nat) (q : Pos) (j : Nat)
    (h : acc.testBit j = true) : (pos_set acc q).testBit j = true := by
  unfold pos_set
  split
  · exact h
  · rw [Nat.one_shiftLeft, Nat.testBit_or, h, Bool.true_or]

theorem pos_set_self_testBit (acc : Nat) (q : Pos)
    (h1 : 0 ≤ q.row) (h2 : q.row < 8) (h3 : 0 ≤ q.col) (h4 : q.col < 8) :
    (pos_set acc q).testBit (63 - (q.row * 8 + q.col)).toNat = true := by
  unfold pos_set
  rw [if_neg (by omega), Nat.one_shiftLeft, Nat.testBit_or, Nat.testBit_two_pow]
  simp

theorem pos_set_testBit_elim (acc : Nat) (q : Pos) (j : Nat)
    (h : (pos_set acc q).testBit j = true) :
    acc.testBit j = true ∨
      ((0 ≤ q.row ∧ q.row < 8 ∧ 0 ≤ q.col ∧ q.col < 8) ∧
        j = (63 - (q.row * 8 + q.col)).toNat) := by
  unfold pos_set at h
  split at h
  · exact Or.inl h
  · rename_i hq
    rw [Nat.one_shiftLeft, Nat.testBit_or, Nat.testBit_two_pow] at h
    simp only [Bool.or_eq_true] at h
    rcases h with h | h
    · exact Or.inl h
    · exact Or.inr ⟨by omega, (decide_eq_true_eq.mp h).symm⟩

theorem foldl_pos_set_testBit (l : List Pos) : ∀ (acc : Nat) (j : Nat),
    ((l.foldl pos_set acc).testBit j = true ↔
      acc.testBit j = true ∨ ∃ q ∈ l,
        (0 ≤ q.row ∧ q.row < 8 ∧ 0 ≤ q.col ∧ q.col < 8) ∧
        j = (63 - (q.row * 8 + q.col)).toNat) := by
  induction l with
  | nil => intro acc j; simp
  | cons q l ih =>
    intro acc j
    rw [List.foldl_cons, ih]
    constructor
    · rintro (h | ⟨r, hr, hrange, hj⟩)
      · rcases pos_set_testBit_elim acc q j h with h | ⟨hq, hj⟩
        · exact Or.inl h
        · exact Or.inr ⟨q, List.mem_cons_self q l, hq, hj⟩
      · exact Or.inr ⟨r, List.mem_cons_of_mem q hr, hrange, hj⟩
    · rintro (h | ⟨r, hr, hrange, hj⟩)
      · exact Or.inl (pos_set_testBit_mono acc q j h)
      · rcases List.mem_cons.mp hr with rfl | hmem
        · subst hj
          exact Or.inl (pos_set_self_testBit acc r (by omega) (by omega)
            (by omega) (by omega))
        · exact Or.inr ⟨r, hmem, hrange, hj⟩

theorem and_ne_zero_exists_bit (a b : Nat) (h : a &&& b ≠ 0) :
    ∃ j, a.testBit j = true ∧ b.testBit j = true := by
  by_contra hno
  push_neg at hno
  apply h
  apply Nat.eq_of_testBit_eq; intro j
  rw [Nat.testBit_and, Nat.zero_testBit]
  cases ha : a.testBit j
  · simp
  · cases hb : b.testBit j
    · simp
    · exact absurd hb (hno j ha)

/-- C6 counterexample: `puzzle` applied to lists (of length ≤ 64) that both
contain cell (0,0) produces monster and treasure grids sharing bit 63. -/
theorem puzzle_overlap_counterexample :
    overlap_args.monsters.length ≤ 64 ∧ overlap_args.treasures.length ≤ 64 ∧
    (puzzle overlap_args).monsters &&& (puzzle overlap_args).treasures ≠ 0 := by
  decide

/-- C6 amended: the constructed record's monster and treasure grid values
share no set bit provided no in-range grid cell is selected both by a listed
monster position and by a listed treasure position (independent accumulation
alone does not enforce this when the same cell appears in both lists). -/
theorem puzzle_disjoint (args : PuzzleArgs)
    (hm : args.monsters.length ≤ 64) (ht : args.treasures.length ≤ 64)
    (hdisj : ∀ q ∈ args.monsters, ∀ r ∈ args.treasures,
      (0 ≤ q.row ∧ q.row < 8 ∧ 0 ≤ q.col ∧ q.col < 8) →
      (0 ≤ r.row ∧ r.row < 8 ∧ 0 ≤ r.col ∧ r.col < 8) →
      ¬(q.row = r.row ∧ q.col = r.col)) :
    (puzzle args).monsters &&& (puzzle args).treasures = 0 := by
  by_contra hne
  obtain ⟨j, hjm, hjt⟩ := and_ne_zero_exists_bit _ _ hne
  unfold puzzle at hjm hjt
  simp only at hjm hjt
  rcases (foldl_pos_set_testBit args.monsters 0 j).mp hjm with h0 | ⟨q, hq, hqr, hqj⟩
  · rw [Nat.zero_testBit] at h0; cases h0
  rcases (foldl_pos_set_testBit args.treasures 0 j).mp hjt with h0 | ⟨r, hr, hrr, hrj⟩
  · rw [Nat.zero_testBit] at h0; cases h0
  apply hdisj q hq r hr hqr hrr
  constructor <;> omega

/-- Witness applying `puzzle_disjoint` to `disjoint_args`. -/
theorem puzzle_disjoint_witness :
    (puzzle disjoint_args).monsters &&& (puzzle disjoint_args).treasures = 0 :=
  puzzle_disjoint disjoint_args (by decide) (by decide) (by decide)

/-- C7 counterexample: with the toggled cell at slot 32 = (4,0) — strictly
beyond the room's bottom-right corner in slot order but not beyond it in
both coordinates — the code takes the lenient branch and accepts a room with
two openings, while the slot-order rule stated by the claim would demand
exactly one opening and reject it. -/
theorem treasure_room_rule_counterexample :
    is_invalid_treasure_room c7_puzzle c7_solution ⟨1, 1⟩ ⟨1, 1⟩ 32 = false ∧
    spec_invalid_treasure_room c7_puzzle c7_solution ⟨1, 1⟩ ⟨1, 1⟩ 32 = true := by
  decide

/-- C7 amended: the strict "exactly one opening" branch is taken exactly when
the toggled cell is at-or-beyond the room ring's bottom-right corner in both
coordinates (`row ≥ center.row + 2` and `col ≥ center.col + 2`) or is the
grid's final cell (7,7); otherwise at least one non-wall border cell is
required.  (Stated for rooms that pass the slot-independent static checks;
rooms failing those are invalid in both branches.) -/
theorem is_invalid_treasure_room_spec (p : Puzzle) (sol : Nat) (t c : Pos)
    (slot : Int)
    (h1 : count_set_bits (room_mask_of c) = 9)
    (h2 : room_mask_of c &&& p.monsters = 0)
    (h3 : room_mask_of c &&& pos_unset p.treasures t = 0)
    (h4 : room_mask_of c &&& sol = 0)
    (h5 : walls_mask_of c &&& p.monsters = 0)
    (h6 : walls_mask_of c &&& p.treasures = 0) :
    is_invalid_treasure_room p sol t c slot =
      if ((pos_from_slot slot).row ≥ c.row + 2 ∧ (pos_from_slot slot).col ≥ c.col + 2) ∨
          ((pos_from_slot slot).row = 7 ∧ (pos_from_slot slot).col = 7) then
        decide (count_set_bits (walls_mask_of c &&& sol) ≠
          count_set_bits (walls_mask_of c) - 1)
      else
        decide (count_set_bits (walls_mask_of c &&& sol) =
          count_set_bits (walls_mask_of c)) := by
  unfold is_invalid_treasure_room
  rw [if_neg (by omega), if_neg (by simp [h2, h3]), if_neg (by simp [h4]),
    if_neg (by simp [h5, h6])]
  by_cases hr : ((pos_from_slot slot).row ≥ c.row + 2 ∧
      (pos_from_slot slot).col ≥ c.col + 2) ∨
      ((pos_from_slot slot).row = 7 ∧ (pos_from_slot slot).col = 7)
  · rw [if_pos hr, if_pos hr]
    by_cases ha : count_set_bits (walls_mask_of c &&& sol) =
        count_set_bits (walls_mask_of c) - 1
    · simp [ha]
    · simp [ha]
  · rw [if_neg hr, if_neg hr]
    by_cases ha : count_set_bits (walls_mask_of c &&& sol) =
        count_set_bits (walls_mask_of c)
    · simp [ha]
    · simp [ha]

/-- Witness applying `is_invalid_treasure_room_spec` at the concrete room of
`c7_puzzle` with the toggled cell at slot 32. -/
theorem is_invalid_treasure_room_spec_witness :
    count_set_bits (room_mask_of ⟨1, 1⟩) = 9 ∧
    room_mask_of ⟨1, 1⟩ &&& c7_puzzle.monsters = 0 ∧
    room_mask_of ⟨1, 1⟩ &&& pos_unset c7_puzzle.treasures ⟨1, 1⟩ = 0 ∧
    room_mask_of ⟨1, 1⟩ &&& c7_solution = 0 ∧
    walls_mask_of ⟨1, 1⟩ &&& c7_puzzle.monsters = 0 ∧
    walls_mask_of ⟨1, 1⟩ &&& c7_puzzle.treasures = 0 ∧
    is_invalid_treasure_room c7_puzzle c7_solution ⟨1, 1⟩ ⟨1, 1⟩ 32 =
      if ((pos_from_slot 32).row ≥ (⟨1, 1⟩ : Pos).row + 2 ∧
          (pos_from_slot 32).col ≥ (⟨1, 1⟩ : Pos).col + 2) ∨
          ((pos_from_slot 32).row = 7 ∧ (pos_from_slot 32).col = 7) then
        decide (count_set_bits (walls_mask_of ⟨1, 1⟩ &&& c7_solution) ≠
          count_set_bits (walls_mask_of ⟨1, 1⟩) - 1)
      else
        decide (count_set_bits (walls_mask_of ⟨1, 1⟩ &&& c7_solution) =
          count_set_bits (walls_mask_of ⟨1, 1⟩)) :=
  ⟨by decide, by decide, by decide, by decide, by decide, by decide,
    is_invalid_treasure_room_spec c7_puzzle c7_solution ⟨1, 1⟩ ⟨1, 1⟩ 32
      (by decide) (by decide) (by decide) (by decide) (by decide) (by decide)⟩

theorem disjoint_of_slot_bits (a b : Nat) (ha : a < 2 ^ 64) (hb : b < 2 ^ 64)
    (h : ∀ i : Fin 64,
      ¬(a.testBit (63 - (i : Nat)) = true ∧ b.testBit (63 - (i : Nat)) = true)) :
    a &&& b = 0 := by
  apply Nat.eq_of_testBit_eq; intro j
  rw [Nat.testBit_and, Nat.zero_testBit]
  by_cases hj : j < 64
  · have hi := h ⟨63 - j, by omega⟩
    simp only at hi
    have he : 63 - (63 - j) = j := by omega
    rw [he] at hi
    cases hA : a.testBit j
    · simp
    · cases hB : b.testBit j
      · simp
      · exact absurd ⟨hA, hB⟩ hi
  · rw [testBit_high a j ha (by omega)]
    simp

theorem GenInv_of_bits (st : GenState)
    (hs : st.solution < 2 ^ 64) (hm : st.monsters < 2 ^ 64) (ht : st.treasures < 2 ^ 64)
    (hcorr : ∀ i : Fin 64,
      st.solution.testBit (63 - (i : Nat)) = decide (st.tiles ((i : Nat) : Int) = Tile.WALL) ∧
      st.monsters.testBit (63 - (i : Nat)) = decide (st.tiles ((i : Nat) : Int) = Tile.MONSTER) ∧
      st.treasures.testBit (63 - (i : Nat)) = decide (st.tiles ((i : Nat) : Int) = Tile.TREASURE)) :
    GenInv st := by
  refine ⟨hs, hm, ht, ?_, ?_, ?_, hcorr⟩
  · apply disjoint_of_slot_bits _ _ hs hm
    intro i ⟨hA, hB⟩
    obtain ⟨e1, e2, _⟩ := hcorr i
    rw [e1] at hA; rw [e2] at hB
    simp only [decide_eq_true_eq] at hA hB
    rw [hA] at hB; cases hB
  · apply disjoint_of_slot_bits _ _ hs ht
    intro i ⟨hA, hB⟩
    obtain ⟨e1, _, e3⟩ := hcorr i
    rw [e1] at hA; rw [e3] at hB
    simp only [decide_eq_true_eq] at hA hB
    rw [hA] at hB; cases hB
  · apply disjoint_of_slot_bits _ _ hm ht
    intro i ⟨hA, hB⟩
    obtain ⟨_, e2, e3⟩ := hcorr i
    rw [e2] at hA; rw [e3] at hB
    simp only [decide_eq_true_eq] at hA hB
    rw [hA] at hB; cases hB

theorem slot_set_bit_fin (m : Nat) (s : Int) (h0 : 0 ≤ s) (h1 : s < 64) (i : Fin 64) :
    (slot_set m s).testBit (63 - (i : Nat)) =
      (m.testBit (63 - (i : Nat)) || decide (((i : Nat) : Int) = s)) := by
  rw [slot_set_testBit m s h0 h1]
  congr 1
  rw [decide_eq_decide]
  omega

theorem slot_unset_bit_fin (m : Nat) (s : Int) (hm : m < 2 ^ 64)
    (h0 : 0 ≤ s) (h1 : s < 64) (i : Fin 64) :
    (slot_unset m s).testBit (63 - (i : Nat)) =
      (m.testBit (63 - (i : Nat)) && !decide (((i : Nat) : Int) = s)) := by
  rw [slot_unset_testBit m s hm h0 h1]
  congr 2
  rw [decide_eq_decide]
  omega

theorem tiles_set_at (f : Int → Tile) (s : Int) (v : Tile) (j : Int) :
    tiles_set f s v j = if j = s then v else f j := rfl

theorem gen_init_inv : GenInv gen_init := by
  refine GenInv_of_bits gen_init (by decide) (by decide) (by decide) ?_
  intro i
  unfold gen_init
  simp [Nat.zero_testBit]

theorem cycle_step_inv (st : GenState) (h0 : 0 ≤ st.slot) (h1 : st.slot < 64)
    (hinv : GenInv st) : GenInv (cycle_step st) := by
  obtain ⟨hs, hm, ht, _, _, _, hcorr⟩ := hinv
  unfold cycle_step
  cases htile : st.tiles st.slot <;> simp only [htile]
  case EMPTY =>
    refine GenInv_of_bits _ hs hm (slot_set_lt _ _ ht) ?_
    intro i
    obtain ⟨e1, e2, e3⟩ := hcorr i
    simp only [slot_set_bit_fin st.treasures st.slot h0 h1 i, tiles_set_at]
    by_cases hi : ((i : Nat) : Int) = st.slot
    · simp only [hi] at e1 e2 e3 ⊢
      simp only [htile] at e1 e2 e3
      simp at e1 e2 e3
      simp [e1, e2, e3]
    · simp only [if_neg hi]
      simp [hi, e1, e2, e3]
  case TREASURE =>
    refine GenInv_of_bits _ hs (slot_set_lt _ _ hm) (slot_unset_lt _ _ ht) ?_
    intro i
    obtain ⟨e1, e2, e3⟩ := hcorr i
    simp only [slot_set_bit_fin st.monsters st.slot h0 h1 i,
      slot_unset_bit_fin st.treasures st.slot ht h0 h1 i, tiles_set_at]
    by_cases hi : ((i : Nat) : Int) = st.slot
    · simp only [hi] at e1 e2 e3 ⊢
      simp only [htile] at e1 e2 e3
      simp at e1 e2 e3
      simp [e1, e2, e3]
    · simp only [if_neg hi]
      simp [hi, e1, e2, e3]
  case MONSTER =>
    refine GenInv_of_bits _ (slot_set_lt _ _ hs) (slot_unset_lt _ _ hm) ht ?_
    intro i
    obtain ⟨e1, e2, e3⟩ := hcorr i
    simp only [slot_set_bit_fin st.solution st.slot h0 h1 i,
      slot_unset_bit_fin st.monsters st.slot hm h0 h1 i, tiles_set_at]
    by_cases hi : ((i : Nat) : Int) = st.slot
    · simp only [hi] at e1 e2 e3 ⊢
      simp only [htile] at e1 e2 e3
      simp at e1 e2 e3
      simp [e1, e2, e3]
    · simp only [if_neg hi]
      simp [hi, e1, e2, e3]
  case WALL =>
    refine GenInv_of_bits _ (slot_unset_lt _ _ hs) hm ht ?_
    intro i
    obtain ⟨e1, e2, e3⟩ := hcorr i
    simp only [slot_unset_bit_fin st.solution st.slot hs h0 h1 i, tiles_set_at]
    by_cases hi : ((i : Nat) : Int) = st.slot
    · simp only [hi] at e1 e2 e3 ⊢
      simp only [htile] at e1 e2 e3
      simp at e1 e2 e3
      simp [e1, e2, e3]
    · simp only [if_neg hi]
      simp [hi, e1, e2, e3]

/-- C10: the generator's initial state satisfies the wall/monster/treasure
disjointness-and-tag invariant, and every tile-cycle transition at an
in-range slot preserves it (the advance and backtrack moves change only the
slot cursor, so preservation under `cycle_step` covers every mutation of the
search state). -/
theorem gen_invariant (st : GenState) (h0 : 0 ≤ st.slot) (h1 : st.slot < 64)
    (hinv : GenInv st) : GenInv gen_init ∧ GenInv (cycle_step st) :=
  ⟨gen_init_inv, cycle_step_inv st h0 h1 hinv⟩

/-- Witness applying `gen_invariant` at the initial state. -/
theorem gen_invariant_witness :
    (0 ≤ gen_init.slot ∧ gen_init.slot < 64 ∧ GenInv gen_init) ∧
    (GenInv gen_init ∧ GenInv (cycle_step gen_init)) := by
  have hinit : GenInv gen_init := by
    refine GenInv_of_bits gen_init (by decide) (by decide) (by decide) ?_
    intro i
    unfold gen_init
    simp [Nat.zero_testBit]
  exact ⟨⟨by decide, by decide, hinit⟩,
    gen_invariant gen_init (by decide) (by decide) hinit⟩

/-! ## Generation stops at capacity (claim C8) -/

theorem generate_go_le (solve_fuel max_puzzles : Nat) :
    ∀ (fuel : Nat) (out : List GeneratedPuzzle) (cnt : Nat) (st : GenState),
      out.length = cnt → cnt ≤ max_puzzles →
      (match generate_go solve_fuel max_puzzles fuel out cnt st with
       | none => True
       | some r => r.1.length = r.2 ∧ r.2 ≤ max_puzzles) := by
  intro fuel
  induction fuel with
  | zero =>
    intro out cnt st h1 h2
    simp [generate_go]
  | succ fuel ih =>
    intro out cnt st h1 h2
    simp only [generate_go]
    split
    · trivial
    next r heq =>
      by_cases hg : st.slot < 0 ∨ 64 ≤ st.slot
      · rw [if_pos hg] at heq
        injection heq with h
        subst h
        exact ⟨h1, h2⟩
      · rw [if_neg hg] at heq
        by_cases hc : generate_checks (cycle_step st) = true
        · rw [if_pos hc] at heq
          by_cases hl : (cycle_step st).slot < 63
          · rw [if_pos hl] at heq
            have hs := ih out cnt
              { cycle_step st with slot := (cycle_step st).slot + 1 } h1 h2
            rw [heq] at hs
            exact hs
          · rw [if_neg hl] at heq
            split at heq
            · exact Option.noConfusion heq
            next fst nsol hsol =>
              by_cases hcnt : cnt < max_puzzles
              · rw [if_pos hcnt] at heq
                have hs := ih
                  (out ++ [{ puzzle := derived_puzzle (cycle_step st),
                             num_solutions := nsol }])
                  (cnt + 1)
                  { cycle_step st with
                      slot := gen_backtrack_n (cycle_step st).tiles
                        ((cycle_step st).slot + 1).toNat }
                  (by simp [h1]) (by omega)
                rw [heq] at hs
                exact hs
              · rw [if_neg hcnt] at heq
                injection heq with h
                subst h
                exact ⟨h1, h2⟩
        · rw [if_neg hc] at heq
          have hs := ih out cnt
            { cycle_step st with
                slot := gen_backtrack_n (cycle_step st).tiles
                  ((cycle_step st).slot + 1).toNat } h1 h2
          rw [heq] at hs
          exact hs

/-- C8: for every capacity, a terminating run of `generate` returns a found
count of at most the capacity (and stores exactly that many puzzles) — the
search stops as soon as the output buffer is full, unlike `solve`, which
keeps counting past its capacity. -/
theorem generate_count_le_capacity (fuel solve_fuel max_puzzles : Nat) :
    match generate fuel solve_fuel max_puzzles with
    | none => True
    | some r => r.1.length = r.2 ∧ r.2 ≤ max_puzzles :=
  generate_go_le solve_fuel max_puzzles fuel [] 0 gen_init rfl (Nat.zero_le _)

theorem solve_go_eq_all (p : Puzzle) (mx : Nat) :
    ∀ (fuel : Nat) (sols : List Nat) (cnt : Nat) (solution : Nat) (slot : Int),
      solve_go p mx fuel sols cnt solution slot =
        (solve_all_go p fuel solution slot).map
          (fun E => (sols ++ E.take (mx - cnt), cnt + E.length)) := by
  intro fuel
  induction fuel with
  | zero =>
    intro sols cnt solution slot
    simp [solve_go, solve_all_go]
  | succ fuel ih =>
    intro sols cnt solution slot
    simp only [solve_go, solve_all_go]
    by_cases hg : slot < 0 ∨ 64 ≤ slot
    · rw [if_pos hg, if_pos hg]
      simp
    · rw [if_neg hg, if_neg hg]
      by_cases hc : check_constraints p
          (if slot_is_set solution slot = 0 then slot_set solution slot
           else slot_unset solution slot) slot = true
      · rw [if_pos hc, if_pos hc]
        by_cases hl : slot < 63
        · rw [if_pos hl, if_pos hl]
          exact ih sols cnt _ (slot + 1)
        · rw [if_neg hl, if_neg hl]
          rw [ih]
          cases hE : solve_all_go p fuel
              (if slot_is_set solution slot = 0 then slot_set solution slot
               else slot_unset solution slot)
              (backtrack_n
                (if slot_is_set solution slot = 0 then slot_set solution slot
                 else slot_unset solution slot) (slot + 1).toNat) with
          | none => simp
          | some E =>
            simp only [Option.map_some']
            by_cases hcnt : cnt < mx
            · rw [if_pos hcnt]
              simp only [Option.some.injEq, Prod.mk.injEq]
              constructor
              · have h1 : mx - cnt = (mx - (cnt + 1)) + 1 := by omega
                rw [h1, List.take_succ_cons, List.append_assoc]
                rfl
              · simp
                omega
            · rw [if_neg hcnt]
              simp only [Option.some.injEq, Prod.mk.injEq]
              constructor
              · have h1 : mx - cnt = 0 := by omega
                have h2 : mx - (cnt + 1) = 0 := by omega
                rw [h1, h2]
                simp
              · simp
                omega
      · rw [if_neg hc, if_neg hc]
        exact ih sols cnt _ _

theorem solve_eq_all (fuel : Nat) (p : Puzzle) (mx : Nat) :
    solve fuel p mx =
      (solve_all_go p fuel 0 0).map (fun E => (E.take mx, E.length)) := by
  unfold solve
  rw [solve_go_eq_all]
  cases solve_all_go p fuel 0 0 with
  | none => rfl
  | some E => simp

/-- C4: the total count returned by `solve` does not depend on the output
capacity; the stored list has length `min count capacity` and is, in order,
the prefix of the capacity-unbounded run's stored list. -/
theorem solve_capacity_independent (fuel : Nat) (p : Puzzle) (c1 c2 : Nat)
    (l1 l2 : List Nat) (n1 n2 : Nat)
    (h1 : solve fuel p c1 = some (l1, n1)) (h2 : solve fuel p c2 = some (l2, n2)) :
    n1 = n2 ∧ l1.length = min n1 c1 ∧ (n2 ≤ c2 → l1 = l2.take c1) := by
  rw [solve_eq_all] at h1 h2
  cases hE : solve_all_go p fuel 0 0 with
  | none =>
    rw [hE] at h1
    cases h1
  | some E =>
    rw [hE] at h1 h2
    simp only [Option.map_some', Option.some.injEq, Prod.mk.injEq] at h1 h2
    obtain ⟨hl1, hn1⟩ := h1
    obtain ⟨hl2, hn2⟩ := h2
    subst hl1; subst hn1; subst hl2; subst hn2
    refine ⟨rfl, ?_, ?_⟩
    · rw [List.length_take]
      omega
    · intro hle
      rw [List.take_of_length_le hle]

/-- Witness applying `solve_capacity_independent` to the all-zero puzzle at
capacities 2 and 5. -/
theorem solve_capacity_independent_witness :
    solve 300 zero_puzzle 2 = some ([], 0) ∧ solve 300 zero_puzzle 5 = some ([], 0) ∧
    ((0 : Nat) = 0 ∧ ([] : List Nat).length = min 0 2 ∧
      ((0 : Nat) ≤ 5 → ([] : List Nat) = ([] : List Nat).take 2)) :=
  ⟨by decide, by decide,
    solve_capacity_independent 300 zero_puzzle 2 5 [] [] 0 0 (by decide) (by decide)⟩

/-! ## Soundness of the solve loop (claim C1, part 1)

Every solution the loop records passed `check_constraints` at slot `k` on
the truncation of that solution to slots `0..k`, for every `k`.  The loop
invariant: all cells beyond the cursor are still 0, and every slot below the
cursor passed its check on the corresponding truncation. -/

theorem backtrack_n_spec (solution : Nat) :
    ∀ n : Nat, backtrack_n solution n < (n : Int) ∧
      (-1 : Int) ≤ backtrack_n solution n ∧
      ∀ j : Int, backtrack_n solution n < j → j < (n : Int) →
        slot_is_set solution j = 0 := by
  intro n
  induction n with
  | zero =>
    refine ⟨by norm_num [backtrack_n], by norm_num [backtrack_n], ?_⟩
    intro j h1 h2
    simp only [backtrack_n] at h1 h2
    exact absurd h1 (by push_cast at h2 ⊢; omega)
  | succ k ih =>
    simp only [backtrack_n]
    by_cases hb : slot_is_set solution (k : Int) = 0
    · rw [if_pos hb]
      obtain ⟨ih1, ih2, ih3⟩ := ih
      refine ⟨by push_cast; omega, ih2, ?_⟩
      intro j h1 h2
      by_cases hj : j < (k : Int)
      · exact ih3 j h1 hj
      · have hjk : j = (k : Int) := by push_cast at h2; omega
        rw [hjk]
        exact hb
    · rw [if_neg hb]
      refine ⟨by push_cast; omega, by omega, ?_⟩
      intro j h1 h2
      exact absurd h1 (by push_cast at h2; omega)

theorem high_clear_slot_set (m : Nat) (i : Int) (h0 : 0 ≤ i) (h1 : i < 64)
    (h : high_clear m i) : high_clear (slot_set m i) i := by
  unfold high_clear trunc at *
  rw [slot_set_eq m i h0 h1, Nat.and_distrib_right, h]
  congr 1
  rw [Nat.and_comm]
  apply and_two_pow_of_testBit
  rw [prefMask_testBit_slot i i h0 h1]
  simp

theorem high_clear_land (m c : Nat) (k : Int) (h : high_clear m k) :
    high_clear (m &&& c) k := by
  unfold high_clear trunc at *
  calc m &&& c &&& prefMask k = m &&& prefMask k &&& c := by
        rw [Nat.and_assoc, Nat.and_assoc, Nat.and_comm c]
    _ = m &&& c := by rw [h]

theorem high_clear_slot_unset (m : Nat) (i : Int) (k : Int) (h : high_clear m k) :
    high_clear (slot_unset m i) k := by
  unfold slot_unset
  split
  · exact h
  · exact high_clear_land m _ k h

theorem slot_is_set_zero_of_high_clear (m : Nat) (s j : Int) (h : high_clear m s)
    (h1 : s < j) (h2 : 0 ≤ j) (h3 : j < 64) : slot_is_set m j = 0 := by
  rw [slot_is_set_zero_iff m j h2 h3]
  cases hb : m.testBit (63 - j).toNat
  · rfl
  · have := high_clear_testBit m s h _ hb
    omega

theorem high_clear_of_unset_above (m : Nat) (hm : m < 2 ^ 64) (bt : Int)
    (h : ∀ j : Int, bt < j → 0 ≤ j → j < 64 → slot_is_set m j = 0) :
    high_clear m bt := by
  unfold high_clear
  apply Nat.eq_of_testBit_eq; intro j
  rw [trunc_testBit]
  cases hmj : m.testBit j
  · simp
  · have hj64 : j < 64 := by
      by_contra hc
      rw [testBit_high m j hm (by omega)] at hmj
      cases hmj
    have hA : decide ((63 - bt).toNat ≤ j) = true := by
      simp only [decide_eq_true_eq]
      by_contra hc
      have hd := h (63 - (j : Int)) (by omega) (by omega) (by omega)
      rw [slot_is_set_zero_iff m _ (by omega) (by omega)] at hd
      have he : (63 - (63 - (j : Int))).toNat = j := by omega
      rw [he, hmj] at hd
      cases hd
    rw [hA]
    simp [hj64]

theorem solve_all_go_sound (p : Puzzle) :
    ∀ (fuel : Nat) (solution : Nat) (slot : Int) (E : List Nat),
      solve_all_go p fuel solution slot = some E →
      slot < 64 →
      (0 ≤ slot →
        high_clear solution slot ∧
        ∀ k : Int, 0 ≤ k → k < slot →
          check_constraints p (trunc k solution) k = true) →
      ∀ g ∈ E, g < 2 ^ 64 ∧ prefix_checks p g := by
  intro fuel
  induction fuel with
  | zero =>
    intro solution slot E h
    cases h
  | succ fuel ih =>
    intro solution slot E hE hslot64 hstate
    simp only [solve_all_go] at hE
    by_cases hg : slot < 0 ∨ 64 ≤ slot
    · rw [if_pos hg] at hE
      injection hE with h
      subst h
      intro g hgm
      cases hgm
    · rw [if_neg hg] at hE
      have h0 : (0 : Int) ≤ slot := by omega
      obtain ⟨hhc, hH⟩ := hstate h0
      have hmlt : solution < 2 ^ 64 := high_clear_lt _ _ hhc
      set sol2 := (if slot_is_set solution slot = 0 then slot_set solution slot
                   else slot_unset solution slot) with hsol2
      have hlt2 : sol2 < 2 ^ 64 := by
        rw [hsol2]; split
        · exact slot_set_lt _ _ hmlt
        · exact slot_unset_lt _ _ hmlt
      have hhc2 : high_clear sol2 slot := by
        rw [hsol2]; split
        · exact high_clear_slot_set solution slot h0 (by omega) hhc
        · exact high_clear_slot_unset solution slot slot hhc
      have hHtr : ∀ k : Int, 0 ≤ k → k < slot → trunc k sol2 = trunc k solution := by
        intro k hk0 hk1
        rw [hsol2]; split
        · exact trunc_slot_set_of_lt solution k slot h0 (by omega) hk1
        · exact trunc_slot_unset_of_lt solution k slot hmlt h0 (by omega) hk1
      have hH2 : ∀ k : Int, 0 ≤ k → k < slot →
          check_constraints p (trunc k sol2) k = true := by
        intro k hk0 hk1
        rw [hHtr k hk0 hk1]
        exact hH k hk0 hk1
      have hbtfact := backtrack_n_spec sol2 (slot + 1).toNat
      have hbtn : ((slot + 1).toNat : Int) = slot + 1 := by omega
      rw [hbtn] at hbtfact
      obtain ⟨hbt1, hbt2, hbt3⟩ := hbtfact
      have hbstate : 0 ≤ backtrack_n sol2 (slot + 1).toNat →
          high_clear sol2 (backtrack_n sol2 (slot + 1).toNat) ∧
          ∀ k : Int, 0 ≤ k → k < backtrack_n sol2 (slot + 1).toNat →
            check_constraints p (trunc k sol2) k = true := by
        intro hbt0
        constructor
        · apply high_clear_of_unset_above sol2 hlt2
          intro j hj1 hj2 hj3
          by_cases hjs : j ≤ slot
          · exact hbt3 j hj1 (by omega)
          · exact slot_is_set_zero_of_high_clear sol2 slot j hhc2 (by omega) hj2 hj3
        · intro k hk0 hk1
          exact hH2 k hk0 (by omega)
      by_cases hc : check_constraints p sol2 slot = true
      · rw [if_pos hc] at hE
        by_cases hl : slot < 63
        · rw [if_pos hl] at hE
          apply ih sol2 (slot + 1) E hE (by omega)
          intro _
          refine ⟨high_clear_mono sol2 slot (slot + 1) (by omega) hhc2, ?_⟩
          intro k hk0 hk1
          by_cases hk : k < slot
          · exact hH2 k hk0 hk
          · have hks : k = slot := by omega
            subst hks
            unfold high_clear at hhc2
            rw [hhc2]
            exact hc
        · have hs63 : slot = 63 := by omega
          subst hs63
          rw [if_neg hl] at hE
          cases hrec : solve_all_go p fuel sol2 (backtrack_n sol2 ((63 : Int) + 1).toNat) with
          | none =>
            rw [hrec] at hE
            cases hE
          | some E2 =>
            rw [hrec] at hE
            simp only [Option.map_some', Option.some.injEq] at hE
            subst hE
            intro g hgmem
            rcases List.mem_cons.mp hgmem with rfl | hmem
            · refine ⟨hlt2, ?_⟩
              intro k hk0 hk64
              by_cases hk : k < 63
              · exact hH2 k hk0 hk
              · have hks : k = 63 := by omega
                subst hks
                rw [trunc_63 _ hlt2]
                exact hc
            · exact ih sol2 _ E2 hrec (by omega) hbstate g hmem
      · rw [if_neg hc] at hE
        exact ih sol2 _ E hE (by omega) hbstate

/-! ## From prefix checks to full-grid checks (claim C1, part 2) -/

theorem check_constraints_eq_true_iff (p : Puzzle) (s : Nat) (slot : Int) :
    check_constraints p s slot = true ↔
      (check_doesnt_overlap p s = true ∧ check_row_count p s slot = true ∧
       check_col_count p s slot = true ∧ check_dead_ends p s slot = true ∧
       check_monsters p s slot = true ∧ check_wide_space p s slot = true ∧
       check_treasure_rooms p s slot = true) := by
  unfold check_constraints
  simp only [Bool.and_eq_true]
  tauto

theorem pos_from_slot_spec (slot : Int) (h0 : 0 ≤ slot) :
    pos_from_slot slot = { row := slot / 8, col := slot % 8 } := by
  unfold pos_from_slot
  rw [Int.tdiv_eq_ediv h0 (by norm_num), Int.tmod_eq_emod h0 (by norm_num)]

theorem slot_decomp (slot : Int) (h0 : 0 ≤ slot) (h1 : slot < 64) :
    0 ≤ (pos_from_slot slot).row ∧ (pos_from_slot slot).row < 8 ∧
    0 ≤ (pos_from_slot slot).col ∧ (pos_from_slot slot).col < 8 ∧
    (pos_from_slot slot).row * 8 + (pos_from_slot slot).col = slot := by
  rw [pos_from_slot_spec slot h0]
  simp only
  omega

theorem row_lit_testBit (i : Nat) :
    (0xFF00000000000000 : Nat).testBit i = (decide (56 ≤ i) && decide (i < 64)) := by
  by_cases h : i < 64
  · interval_cases i <;> decide
  · rw [testBit_high _ i (by norm_num) (by omega)]
    have h2 : decide (i < 64) = false := by simp; omega
    rw [h2, Bool.and_false]

theorem col_lit_testBit (i : Nat) :
    (0x8080808080808080 : Nat).testBit i = (decide (i % 8 = 7) && decide (i < 64)) := by
  by_cases h : i < 64
  · interval_cases i <;> decide
  · rw [testBit_high _ i (by norm_num) (by omega)]
    have h2 : decide (i < 64) = false := by simp; omega
    rw [h2, Bool.and_false]

theorem row_mask_pref (row k : Int) (h0 : 0 ≤ row) (h8 : row < 8)
    (hk : row * 8 + 7 ≤ k) :
    (0xFF00000000000000 >>> (row * 8).toNat) &&& prefMask k =
      0xFF00000000000000 >>> (row * 8).toNat := by
  apply Nat.eq_of_testBit_eq; intro j
  rw [Nat.testBit_and, Nat.testBit_shiftRight, row_lit_testBit, prefMask_testBit]
  by_cases c1 : 56 ≤ (row * 8).toNat + j
  · by_cases c2 : (row * 8).toNat + j < 64
    · have d1 : decide (56 ≤ (row * 8).toNat + j) = true := by simp [c1]
      have d2 : decide ((row * 8).toNat + j < 64) = true := by simp [c2]
      have d3 : decide ((63 - k).toNat ≤ j) = true := by simp only [decide_eq_true_eq]; omega
      have d4 : decide (j < 64) = true := by simp only [decide_eq_true_eq]; omega
      rw [d1, d2, d3, d4]
      rfl
    · have d2 : decide ((row * 8).toNat + j < 64) = false := by simp [c2]
      rw [d2]
      simp
  · have d1 : decide (56 ≤ (row * 8).toNat + j) = false := by simp [c1]
    rw [d1]
    simp

theorem col_mask_pref (col k : Int) (h0 : 0 ≤ col) (h8 : col < 8)
    (hk : 56 + col ≤ k) :
    (0x8080808080808080 >>> col.toNat) &&& prefMask k =
      0x8080808080808080 >>> col.toNat := by
  apply Nat.eq_of_testBit_eq; intro j
  rw [Nat.testBit_and, Nat.testBit_shiftRight, col_lit_testBit, prefMask_testBit]
  by_cases c1 : (col.toNat + j) % 8 = 7
  · by_cases c2 : col.toNat + j < 64
    · have d1 : decide ((col.toNat + j) % 8 = 7) = true := by simp [c1]
      have d2 : decide (col.toNat + j < 64) = true := by simp [c2]
      have d3 : decide ((63 - k).toNat ≤ j) = true := by simp only [decide_eq_true_eq]; omega
      have d4 : decide (j < 64) = true := by simp only [decide_eq_true_eq]; omega
      rw [d1, d2, d3, d4]
      rfl
    · have d2 : decide (col.toNat + j < 64) = false := by simp [c2]
      rw [d2]
      simp
  · have d1 : decide ((col.toNat + j) % 8 = 7) = false := by simp [c1]
    rw [d1]
    simp

theorem count_walls_in_row_trunc (g : Nat) (row k : Int) (h0 : 0 ≤ row) (h8 : row < 8)
    (hk : row * 8 + 7 ≤ k) :
    count_walls_in_row (trunc k g) row = count_walls_in_row g row := by
  unfold count_walls_in_row
  rw [and_trunc_eq _ g k (row_mask_pref row k h0 h8 hk)]

theorem count_walls_in_col_trunc (g : Nat) (col k : Int) (h0 : 0 ≤ col) (h8 : col < 8)
    (hk : 56 + col ≤ k) :
    count_walls_in_col (trunc k g) col = count_walls_in_col g col := by
  unfold count_walls_in_col
  rw [and_trunc_eq _ g k (col_mask_pref col k h0 h8 hk)]

theorem check_row_count_iff (p : Puzzle) (s : Nat) (slot : Int) :
    check_row_count p s slot = true ↔
      (count_walls_in_row s (pos_from_slot slot).row ≤
          (p.row_wall_counts (pos_from_slot slot).row : Int) ∧
        ((pos_from_slot slot).col = 7 →
          count_walls_in_row s (pos_from_slot slot).row =
            (p.row_wall_counts (pos_from_slot slot).row : Int))) := by
  simp only [check_row_count]
  split_ifs with hA hB
  · simp only [false_iff]
    intro ⟨ha, _⟩
    omega
  · simp only [false_iff]
    intro ⟨_, hb⟩
    exact hB.2 (hb hB.1)
  · simp only [true_iff]
    constructor
    · omega
    · intro hc
      by_contra hne
      exact hB ⟨hc, hne⟩

theorem check_col_count_iff (p : Puzzle) (s : Nat) (slot : Int) :
    check_col_count p s slot = true ↔
      (count_walls_in_col s (pos_from_slot slot).col ≤
          (p.col_wall_counts (pos_from_slot slot).col : Int) ∧
        ((pos_from_slot slot).row = 7 →
          count_walls_in_col s (pos_from_slot slot).col =
            (p.col_wall_counts (pos_from_slot slot).col : Int))) := by
  simp only [check_col_count]
  split_ifs with hA hB
  · simp only [false_iff]
    intro ⟨ha, _⟩
    omega
  · simp only [false_iff]
    intro ⟨_, hb⟩
    exact hB.2 (hb hB.1)
  · simp only [true_iff]
    constructor
    · omega
    · intro hc
      by_contra hne
      exact hB ⟨hc, hne⟩

theorem check_row_count_full (p : Puzzle) (g : Nat) (H : prefix_checks p g)
    (slot : Int) (h0 : 0 ≤ slot) (h1 : slot < 64) :
    check_row_count p g slot = true := by
  obtain ⟨hr0, hr8, hc0, hc8, hrc⟩ := slot_decomp slot h0 h1
  set r := (pos_from_slot slot).row with hr
  have hk := H (r * 8 + 7) (by omega) (by omega)
  rw [check_constraints_eq_true_iff] at hk
  have hrow := hk.2.1
  rw [check_row_count_iff] at hrow
  obtain ⟨hra, hrb, hrcc, hrd, hre⟩ := slot_decomp (r * 8 + 7) (by omega) (by omega)
  have hrowr : (pos_from_slot (r * 8 + 7)).row = r := by omega
  have hrowc : (pos_from_slot (r * 8 + 7)).col = 7 := by omega
  rw [hrowr, hrowc] at hrow
  have hexact := hrow.2 rfl
  rw [count_walls_in_row_trunc g r (r * 8 + 7) hr0 hr8 (by omega)] at hexact
  rw [check_row_count_iff, ← hr]
  constructor
  · omega
  · intro _
    omega

theorem check_col_count_full (p : Puzzle) (g : Nat) (H : prefix_checks p g)
    (slot : Int) (h0 : 0 ≤ slot) (h1 : slot < 64) :
    check_col_count p g slot = true := by
  obtain ⟨hr0, hr8, hc0, hc8, hrc⟩ := slot_decomp slot h0 h1
  set c := (pos_from_slot slot).col with hc
  have hk := H (56 + c) (by omega) (by omega)
  rw [check_constraints_eq_true_iff] at hk
  have hcol := hk.2.2.1
  rw [check_col_count_iff] at hcol
  obtain ⟨hra, hrb, hrcc, hrd, hre⟩ := slot_decomp (56 + c) (by omega) (by omega)
  have hcolr : (pos_from_slot (56 + c)).row = 7 := by omega
  have hcolc : (pos_from_slot (56 + c)).col = c := by omega
  rw [hcolr, hcolc] at hcol
  have hexact := hcol.2 rfl
  rw [count_walls_in_col_trunc g c (56 + c) hc0 hc8 (by omega)] at hexact
  rw [check_col_count_iff, ← hc]
  constructor
  · omega
  · intro _
    omega

theorem single_pos_pref (q : Pos) (k : Int)
    (h : 0 ≤ q.row → q.row < 8 → 0 ≤ q.col → q.col < 8 → q.row * 8 + q.col ≤ k) :
    pos_set 0 q &&& prefMask k = pos_set 0 q :=
  land_pref_pos_set 0 q k (Nat.zero_and _) h

theorem border_pref (q : Pos) (k : Int)
    (h : ∀ r c : Int,
      ((r = q.row - 1 ∧ c = q.col) ∨ (r = q.row + 1 ∧ c = q.col) ∨
       (r = q.row ∧ c = q.col - 1) ∨ (r = q.row ∧ c = q.col + 1)) →
      0 ≤ r → r < 8 → 0 ≤ c → c < 8 → r * 8 + c ≤ k) :
    border_mask_of q &&& prefMask k = border_mask_of q := by
  unfold border_mask_of
  refine land_pref_pos_set _ _ _ (land_pref_pos_set _ _ _ (land_pref_pos_set _ _ _
    (land_pref_pos_set _ _ _ (Nat.zero_and _) ?_) ?_) ?_) ?_
  · exact fun a b c d => h _ _ (Or.inl ⟨rfl, rfl⟩) a b c d
  · exact fun a b c d => h _ _ (Or.inr (Or.inl ⟨rfl, rfl⟩)) a b c d
  · exact fun a b c d => h _ _ (Or.inr (Or.inr (Or.inl ⟨rfl, rfl⟩))) a b c d
  · exact fun a b c d => h _ _ (Or.inr (Or.inr (Or.inr ⟨rfl, rfl⟩))) a b c d

theorem is_dead_end_trunc (p : Puzzle) (g : Nat) (k : Int) (q : Pos)
    (h1 : pos_set 0 q &&& prefMask k = pos_set 0 q)
    (h2 : border_mask_of q &&& prefMask k = border_mask_of q) :
    is_dead_end p (trunc k g) q = is_dead_end p g q := by
  simp only [is_dead_end]
  rw [and_trunc_eq _ g k h1, and_trunc_eq _ g k h2]

theorem is_dead_end_oor (p : Puzzle) (s : Nat) (q : Pos)
    (h : q.row < 0 ∨ 8 ≤ q.row ∨ q.col < 0 ∨ 8 ≤ q.col) :
    is_dead_end p s q = false := by
  simp only [is_dead_end]
  rw [if_pos h]

theorem is_invalid_monster_trunc (p : Puzzle) (g : Nat) (k : Int) (q : Pos)
    (h2 : border_mask_of q &&& prefMask k = border_mask_of q) :
    is_invalid_monster p (trunc k g) q = is_invalid_monster p g q := by
  simp only [is_invalid_monster]
  rw [and_trunc_eq _ g k h2]

theorem is_invalid_monster_oor (p : Puzzle) (s : Nat) (q : Pos)
    (h : q.row < 0 ∨ 8 ≤ q.row ∨ q.col < 0 ∨ 8 ≤ q.col) :
    is_invalid_monster p s q = false := by
  simp only [is_invalid_monster]
  rw [if_pos h]

theorem check_dead_ends_iff (p : Puzzle) (s : Nat) (slot : Int) :
    check_dead_ends p s slot = true ↔
      (is_dead_end p s { row := (pos_from_slot slot).row - 1, col := (pos_from_slot slot).col } = false ∧
       is_dead_end p s { row := (pos_from_slot slot).row, col := (pos_from_slot slot).col - 1 } = false ∧
       is_dead_end p s (pos_from_slot slot) = false) := by
  simp only [check_dead_ends]
  split_ifs with h
  · simp only [false_iff]
    intro ⟨ha, hb, hc⟩
    rcases h with h | h | h
    · rw [ha] at h; cases h
    · rw [hb] at h; cases h
    · rw [hc] at h; cases h
  · simp only [true_iff]
    push_neg at h
    obtain ⟨h1, h2, h3⟩ := h
    exact ⟨Bool.eq_false_iff.mpr h1, Bool.eq_false_iff.mpr h2, Bool.eq_false_iff.mpr h3⟩

theorem check_monsters_iff (p : Puzzle) (s : Nat) (slot : Int) :
    check_monsters p s slot = true ↔
      (is_invalid_monster p s { row := (pos_from_slot slot).row - 1, col := (pos_from_slot slot).col } = false ∧
       ((pos_from_slot slot).row = 7 →
         is_invalid_monster p s { row := (pos_from_slot slot).row, col := (pos_from_slot slot).col - 1 } = false ∧
         ((pos_from_slot slot).col = 7 →
           is_invalid_monster p s (pos_from_slot slot) = false))) := by
  simp only [check_monsters]
  split_ifs with h1 h2 h3 h4 h5
  · simp only [false_iff]
    intro ⟨ha, _⟩
    rw [ha] at h1; cases h1
  · simp only [false_iff]
    intro ⟨_, hb⟩
    have := (hb h2).1
    rw [this] at h3; cases h3
  · simp only [false_iff]
    intro ⟨_, hb⟩
    have := (hb h2).2 h4
    rw [this] at h5; cases h5
  · simp only [true_iff]
    refine ⟨Bool.eq_false_iff.mpr h1, fun _ => ⟨Bool.eq_false_iff.mpr h3,
      fun _ => Bool.eq_false_iff.mpr h5⟩⟩
  · simp only [true_iff]
    refine ⟨Bool.eq_false_iff.mpr h1, fun _ => ⟨Bool.eq_false_iff.mpr h3,
      fun hc => absurd hc h4⟩⟩
  · simp only [true_iff]
    exact ⟨Bool.eq_false_iff.mpr h1, fun hr => absurd hr h2⟩

theorem is_dead_end_false_of_hist (p : Puzzle) (g : Nat) (H : prefix_checks p g)
    (q : Pos) (hr0 : 0 ≤ q.row) (hr8 : q.row < 8) (hc0 : 0 ≤ q.col) (hc8 : q.col < 8) :
    is_dead_end p g q = false := by
  by_cases hrow : q.row ≤ 6
  · have hk := H ((q.row + 1) * 8 + q.col) (by omega) (by omega)
    rw [check_constraints_eq_true_iff] at hk
    have hde := hk.2.2.2.1
    rw [check_dead_ends_iff] at hde
    obtain ⟨hB0, hB8, hC0, hC8, hBC⟩ :=
      slot_decomp ((q.row + 1) * 8 + q.col) (by omega) (by omega)
    have habove : ({ row := (pos_from_slot ((q.row + 1) * 8 + q.col)).row - 1, col := (pos_from_slot ((q.row + 1) * 8 + q.col)).col } : Pos) = q := by
      have e1 : (pos_from_slot ((q.row + 1) * 8 + q.col)).row - 1 = q.row := by omega
      have e2 : (pos_from_slot ((q.row + 1) * 8 + q.col)).col = q.col := by omega
      rw [e1, e2]
    have hsp : pos_set 0 q &&& prefMask ((q.row + 1) * 8 + q.col) = pos_set 0 q :=
      single_pos_pref q _ (by intro _ _ _ _; omega)
    have hbp : border_mask_of q &&& prefMask ((q.row + 1) * 8 + q.col) = border_mask_of q := by
      refine border_pref q _ ?_
      rintro r c (⟨rfl, rfl⟩ | ⟨rfl, rfl⟩ | ⟨rfl, rfl⟩ | ⟨rfl, rfl⟩) _ _ _ _ <;> omega
    have hfact := hde.1
    rw [habove, is_dead_end_trunc p g _ q hsp hbp] at hfact
    exact hfact
  · have hrow7 : q.row = 7 := by omega
    by_cases hcol : q.col ≤ 6
    · have hk := H (56 + q.col + 1) (by omega) (by omega)
      rw [check_constraints_eq_true_iff] at hk
      have hde := hk.2.2.2.1
      rw [check_dead_ends_iff] at hde
      obtain ⟨hB0, hB8, hC0, hC8, hBC⟩ :=
        slot_decomp (56 + q.col + 1) (by omega) (by omega)
      have hleft : ({ row := (pos_from_slot (56 + q.col + 1)).row, col := (pos_from_slot (56 + q.col + 1)).col - 1 } : Pos) = q := by
        have e1 : (pos_from_slot (56 + q.col + 1)).row = q.row := by omega
        have e2 : (pos_from_slot (56 + q.col + 1)).col - 1 = q.col := by omega
        rw [e1, e2]
      have hsp : pos_set 0 q &&& prefMask (56 + q.col + 1) = pos_set 0 q :=
        single_pos_pref q _ (by intro _ _ _ _; omega)
      have hbp : border_mask_of q &&& prefMask (56 + q.col + 1) = border_mask_of q := by
        refine border_pref q _ ?_
        rintro r c (⟨rfl, rfl⟩ | ⟨rfl, rfl⟩ | ⟨rfl, rfl⟩ | ⟨rfl, rfl⟩) _ _ _ _ <;> omega
      have hfact := hde.2.1
      rw [hleft, is_dead_end_trunc p g _ q hsp hbp] at hfact
      exact hfact
    · have hcol7 : q.col = 7 := by omega
      have hk := H 63 (by norm_num) (by norm_num)
      rw [check_constraints_eq_true_iff] at hk
      have hde := hk.2.2.2.1
      rw [check_dead_ends_iff] at hde
      have hself : pos_from_slot (63 : Int) = q := by
        have hq : q = ({ row := 7, col := 7 } : Pos) := by
          obtain ⟨r, c⟩ := q
          simp only [Pos.mk.injEq]
          exact ⟨hrow7, hcol7⟩
        rw [hq]
        decide
      have hsp : pos_set 0 q &&& prefMask 63 = pos_set 0 q :=
        single_pos_pref q _ (by intro _ _ _ _; omega)
      have hbp : border_mask_of q &&& prefMask 63 = border_mask_of q := by
        refine border_pref q _ ?_
        rintro r c (⟨rfl, rfl⟩ | ⟨rfl, rfl⟩ | ⟨rfl, rfl⟩ | ⟨rfl, rfl⟩) _ _ _ _ <;> omega
      have hfact := hde.2.2
      rw [hself, is_dead_end_trunc p g _ q hsp hbp] at hfact
      exact hfact

theorem is_invalid_monster_false_of_hist (p : Puzzle) (g : Nat) (H : prefix_checks p g)
    (q : Pos) (hr0 : 0 ≤ q.row) (hr8 : q.row < 8) (hc0 : 0 ≤ q.col) (hc8 : q.col < 8) :
    is_invalid_monster p g q = false := by
  by_cases hrow : q.row ≤ 6
  · have hk := H ((q.row + 1) * 8 + q.col) (by omega) (by omega)
    rw [check_constraints_eq_true_iff] at hk
    have hmn := hk.2.2.2.2.1
    rw [check_monsters_iff] at hmn
    obtain ⟨hB0, hB8, hC0, hC8, hBC⟩ :=
      slot_decomp ((q.row + 1) * 8 + q.col) (by omega) (by omega)
    have habove : ({ row := (pos_from_slot ((q.row + 1) * 8 + q.col)).row - 1, col := (pos_from_slot ((q.row + 1) * 8 + q.col)).col } : Pos) = q := by
      have e1 : (pos_from_slot ((q.row + 1) * 8 + q.col)).row - 1 = q.row := by omega
      have e2 : (pos_from_slot ((q.row + 1) * 8 + q.col)).col = q.col := by omega
      rw [e1, e2]
    have hbp : border_mask_of q &&& prefMask ((q.row + 1) * 8 + q.col) = border_mask_of q := by
      refine border_pref q _ ?_
      rintro r c (⟨rfl, rfl⟩ | ⟨rfl, rfl⟩ | ⟨rfl, rfl⟩ | ⟨rfl, rfl⟩) _ _ _ _ <;> omega
    have hfact := hmn.1
    rw [habove, is_invalid_monster_trunc p g _ q hbp] at hfact
    exact hfact
  · have hrow7 : q.row = 7 := by omega
    by_cases hcol : q.col ≤ 6
    · have hk := H (56 + q.col + 1) (by omega) (by omega)
      rw [check_constraints_eq_true_iff] at hk
      have hmn := hk.2.2.2.2.1
      rw [check_monsters_iff] at hmn
      obtain ⟨hB0, hB8, hC0, hC8, hBC⟩ :=
        slot_decomp (56 + q.col + 1) (by omega) (by omega)
      have hrow7' : (pos_from_slot (56 + q.col + 1)).row = 7 := by omega
      have hleft : ({ row := (pos_from_slot (56 + q.col + 1)).row, col := (pos_from_slot (56 + q.col + 1)).col - 1 } : Pos) = q := by
        have e1 : (pos_from_slot (56 + q.col + 1)).row = q.row := by omega
        have e2 : (pos_from_slot (56 + q.col + 1)).col - 1 = q.col := by omega
        rw [e1, e2]
      have hbp : border_mask_of q &&& prefMask (56 + q.col + 1) = border_mask_of q := by
        refine border_pref q _ ?_
        rintro r c (⟨rfl, rfl⟩ | ⟨rfl, rfl⟩ | ⟨rfl, rfl⟩ | ⟨rfl, rfl⟩) _ _ _ _ <;> omega
      have hfact := (hmn.2 hrow7').1
      rw [hleft, is_invalid_monster_trunc p g _ q hbp] at hfact
      exact hfact
    · have hcol7 : q.col = 7 := by omega
      have hk := H 63 (by norm_num) (by norm_num)
      rw [check_constraints_eq_true_iff] at hk
      have hmn := hk.2.2.2.2.1
      rw [check_monsters_iff] at hmn
      have h63r : (pos_from_slot (63 : Int)).row = 7 := by decide
      have h63c : (pos_from_slot (63 : Int)).col = 7 := by decide
      have hself : pos_from_slot (63 : Int) = q := by
        have hq : q = ({ row := 7, col := 7 } : Pos) := by
          obtain ⟨r, c⟩ := q
          simp only [Pos.mk.injEq]
          exact ⟨hrow7, hcol7⟩
        rw [hq]
        decide
      have hbp : border_mask_of q &&& prefMask 63 = border_mask_of q := by
        refine border_pref q _ ?_
        rintro r c (⟨rfl, rfl⟩ | ⟨rfl, rfl⟩ | ⟨rfl, rfl⟩ | ⟨rfl, rfl⟩) _ _ _ _ <;> omega
      have hfact := (hmn.2 h63r).2 h63c
      rw [hself, is_invalid_monster_trunc p g _ q hbp] at hfact
      exact hfact

theorem check_dead_ends_full (p : Puzzle) (g : Nat) (H : prefix_checks p g)
    (slot : Int) (h0 : 0 ≤ slot) (h1 : slot < 64) :
    check_dead_ends p g slot = true := by
  obtain ⟨hr0, hr8, hc0, hc8, hrc⟩ := slot_decomp slot h0 h1
  rw [check_dead_ends_iff]
  refine ⟨?_, ?_, ?_⟩
  · by_cases h : 0 ≤ (pos_from_slot slot).row - 1
    · exact is_dead_end_false_of_hist p g H _ h
        (show (pos_from_slot slot).row - 1 < 8 by omega)
        (show 0 ≤ (pos_from_slot slot).col by omega)
        (show (pos_from_slot slot).col < 8 by omega)
    · exact is_dead_end_oor p g _
        (Or.inl (show (pos_from_slot slot).row - 1 < 0 by omega))
  · by_cases h : 0 ≤ (pos_from_slot slot).col - 1
    · exact is_dead_end_false_of_hist p g H _
        (show 0 ≤ (pos_from_slot slot).row by omega)
        (show (pos_from_slot slot).row < 8 by omega)
        h
        (show (pos_from_slot slot).col - 1 < 8 by omega)
    · exact is_dead_end_oor p g _
        (Or.inr (Or.inr (Or.inl (show (pos_from_slot slot).col - 1 < 0 by omega))))
  · exact is_dead_end_false_of_hist p g H _ hr0 hr8 hc0 hc8

theorem check_monsters_full (p : Puzzle) (g : Nat) (H : prefix_checks p g)
    (slot : Int) (h0 : 0 ≤ slot) (h1 : slot < 64) :
    check_monsters p g slot = true := by
  obtain ⟨hr0, hr8, hc0, hc8, hrc⟩ := slot_decomp slot h0 h1
  rw [check_monsters_iff]
  refine ⟨?_, ?_⟩
  · by_cases h : 0 ≤ (pos_from_slot slot).row - 1
    · exact is_invalid_monster_false_of_hist p g H _ h
        (show (pos_from_slot slot).row - 1 < 8 by omega)
        (show 0 ≤ (pos_from_slot slot).col by omega)
        (show (pos_from_slot slot).col < 8 by omega)
    · exact is_invalid_monster_oor p g _
        (Or.inl (show (pos_from_slot slot).row - 1 < 0 by omega))
  · intro _
    refine ⟨?_, ?_⟩
    · by_cases h : 0 ≤ (pos_from_slot slot).col - 1
      · exact is_invalid_monster_false_of_hist p g H _
          (show 0 ≤ (pos_from_slot slot).row by omega)
          (show (pos_from_slot slot).row < 8 by omega)
          h
          (show (pos_from_slot slot).col - 1 < 8 by omega)
      · exact is_invalid_monster_oor p g _
          (Or.inr (Or.inr (Or.inl (show (pos_from_slot slot).col - 1 < 0 by omega))))
    · intro _
      exact is_invalid_monster_false_of_hist p g H _ hr0 hr8 hc0 hc8

theorem space_pref (q : Pos) (k : Int)
    (h : ∀ r c : Int,
      ((r = q.row ∧ c = q.col) ∨ (r = q.row ∧ c = q.col - 1) ∨
       (r = q.row - 1 ∧ c = q.col) ∨ (r = q.row - 1 ∧ c = q.col - 1)) →
      0 ≤ r → r < 8 → 0 ≤ c → c < 8 → r * 8 + c ≤ k) :
    space_mask_of q &&& prefMask k = space_mask_of q := by
  unfold space_mask_of
  refine land_pref_pos_set _ _ _ (land_pref_pos_set _ _ _ (land_pref_pos_set _ _ _
    (land_pref_pos_set _ _ _ (Nat.zero_and _) ?_) ?_) ?_) ?_
  · exact fun a b c d => h _ _ (Or.inl ⟨rfl, rfl⟩) a b c d
  · exact fun a b c d => h _ _ (Or.inr (Or.inl ⟨rfl, rfl⟩)) a b c d
  · exact fun a b c d => h _ _ (Or.inr (Or.inr (Or.inl ⟨rfl, rfl⟩))) a b c d
  · exact fun a b c d => h _ _ (Or.inr (Or.inr (Or.inr ⟨rfl, rfl⟩))) a b c d

theorem check_wide_space_trunc (p : Puzzle) (g : Nat) (k : Int)
    (hm : space_mask_of (pos_from_slot k) &&& prefMask k = space_mask_of (pos_from_slot k)) :
    check_wide_space p (trunc k g) k = check_wide_space p g k := by
  simp only [check_wide_space]
  rw [and_trunc_eq _ g k hm]

theorem check_wide_space_full (p : Puzzle) (g : Nat) (H : prefix_checks p g)
    (slot : Int) (h0 : 0 ≤ slot) (h1 : slot < 64) :
    check_wide_space p g slot = true := by
  obtain ⟨hr0, hr8, hc0, hc8, hrc⟩ := slot_decomp slot h0 h1
  have hk := H slot h0 h1
  rw [check_constraints_eq_true_iff] at hk
  have hw := hk.2.2.2.2.2.1
  have hm : space_mask_of (pos_from_slot slot) &&& prefMask slot
      = space_mask_of (pos_from_slot slot) := by
    refine space_pref _ _ ?_
    rintro r c (⟨rfl, rfl⟩ | ⟨rfl, rfl⟩ | ⟨rfl, rfl⟩ | ⟨rfl, rfl⟩) _ _ _ _ <;> omega
  rw [check_wide_space_trunc p g slot hm] at hw
  exact hw

theorem is_invalid_treasure_room_of_63 (p : Puzzle) (s : Nat) (t c : Pos) (k : Int)
    (h : is_invalid_treasure_room p s t c 63 = false) :
    is_invalid_treasure_room p s t c k = false := by
  simp only [is_invalid_treasure_room] at h ⊢
  by_cases g1 : count_set_bits (room_mask_of c) ≠ 9
  · rw [if_pos g1] at h; cases h
  rw [if_neg g1] at h ⊢
  by_cases g2 : room_mask_of c &&& p.monsters ≠ 0 ∨
      room_mask_of c &&& pos_unset p.treasures t ≠ 0
  · rw [if_pos g2] at h; cases h
  rw [if_neg g2] at h ⊢
  by_cases g3 : room_mask_of c &&& s ≠ 0
  · rw [if_pos g3] at h; cases h
  rw [if_neg g3] at h ⊢
  by_cases g4 : walls_mask_of c &&& p.monsters ≠ 0 ∨
      walls_mask_of c &&& p.treasures ≠ 0
  · rw [if_pos g4] at h; cases h
  rw [if_neg g4] at h ⊢
  have hc63 : ((pos_from_slot (63 : Int)).row ≥ c.row + 2 ∧
      (pos_from_slot (63 : Int)).col ≥ c.col + 2) ∨
      ((pos_from_slot (63 : Int)).row = 7 ∧ (pos_from_slot (63 : Int)).col = 7) :=
    Or.inr ⟨by decide, by decide⟩
  rw [if_pos hc63] at h
  have hcc : count_set_bits (walls_mask_of c &&& s)
      = count_set_bits (walls_mask_of c) - 1 := by
    by_cases hq : count_set_bits (walls_mask_of c &&& s)
        = count_set_bits (walls_mask_of c) - 1
    · exact hq
    · rw [if_pos hq] at h; cases h
  split_ifs with hck hne heq
  · exact absurd hcc hne
  · rfl
  · rw [hcc] at heq; omega
  · rfl

theorem is_invalid_treasure_of_63 (p : Puzzle) (s : Nat) (t : Pos) (k : Int)
    (h : is_invalid_treasure p s t 63 = false) :
    is_invalid_treasure p s t k = false := by
  simp only [is_invalid_treasure, Bool.eq_false_iff, Ne, List.all_eq_true] at h ⊢
  intro hall
  apply h
  intro row hrow col hcol
  have hk := hall row hrow col hcol
  rcases Bool.eq_false_or_eq_true
      (is_invalid_treasure_room p s t { row := row, col := col } 63) with e | e
  · exact e
  · have h2 := is_invalid_treasure_room_of_63 p s t { row := row, col := col } k e
    rw [h2] at hk
    cases hk

theorem check_treasure_rooms_of_63 (p : Puzzle) (s : Nat) (k : Int)
    (h : check_treasure_rooms p s 63 = true) :
    check_treasure_rooms p s k = true := by
  simp only [check_treasure_rooms] at h ⊢
  split_ifs at h ⊢ with ht
  · rfl
  · simp only [List.all_eq_true] at h ⊢
    intro row hrow col hcol
    have hk := h row hrow col hcol
    by_cases hset : pos_is_set p.treasures { row := ((row : Nat) : Int), col := ((col : Nat) : Int) } ≠ 0
    · rw [if_pos hset] at hk ⊢
      rcases Bool.eq_false_or_eq_true
          (is_invalid_treasure p s { row := ((row : Nat) : Int), col := ((col : Nat) : Int) } 63) with e | e
      · rw [e] at hk
        cases hk
      · have h2 := is_invalid_treasure_of_63 p s _ k e
        rw [h2]
        rfl
    · rw [if_neg hset]

theorem check_treasure_rooms_full (p : Puzzle) (g : Nat) (hlt : g < 2 ^ 64)
    (H : prefix_checks p g) (slot : Int) :
    check_treasure_rooms p g slot = true := by
  have hk := H 63 (by norm_num) (by norm_num)
  rw [check_constraints_eq_true_iff] at hk
  have ht := hk.2.2.2.2.2.2
  rw [trunc_63 g hlt] at ht
  exact check_treasure_rooms_of_63 p g slot ht

theorem check_constraints_full (p : Puzzle) (g : Nat) (hlt : g < 2 ^ 64)
    (H : prefix_checks p g) (slot : Int) (h0 : 0 ≤ slot) (h1 : slot < 64) :
    check_constraints p g slot = true := by
  rw [check_constraints_eq_true_iff]
  refine ⟨?_, check_row_count_full p g H slot h0 h1,
    check_col_count_full p g H slot h0 h1,
    check_dead_ends_full p g H slot h0 h1,
    check_monsters_full p g H slot h0 h1,
    check_wide_space_full p g H slot h0 h1,
    check_treasure_rooms_full p g hlt H slot⟩
  have hk := H 63 (by norm_num) (by norm_num)
  rw [check_constraints_eq_true_iff] at hk
  have ho := hk.1
  rw [trunc_63 g hlt] at ho
  exact ho

/-- C1: for every puzzle record with row/column targets in 0-8, every grid
value stored by a terminating run of `solve` satisfies all seven constraint
predicates (no-overlap, row count, column count, dead-end avoidance, monster
validity, no wide open space, treasure room validity) at every slot 0-63. -/
theorem solve_solutions_satisfy_constraints (fuel : Nat) (p : Puzzle)
    (mx : Nat) (l : List Nat) (n : Nat)
    (h8 : ∀ i : Int, 0 ≤ i → i < 8 →
      p.row_wall_counts i ≤ 8 ∧ p.col_wall_counts i ≤ 8)
    (hs : solve fuel p mx = some (l, n)) :
    ∀ g ∈ l, ∀ slot : Int, 0 ≤ slot → slot < 64 →
      check_constraints p g slot = true := by
  intro g hg slot hs0 hs1
  rw [solve_eq_all] at hs
  cases hall : solve_all_go p fuel 0 0 with
  | none =>
    rw [hall] at hs
    cases hs
  | some E =>
    rw [hall] at hs
    simp only [Option.map_some'] at hs
    injection hs with hpair
    have hl : E.take mx = l := congrArg Prod.fst hpair
    have hgE : g ∈ E := by
      rw [← hl] at hg
      exact List.mem_of_mem_take hg
    have hsound := solve_all_go_sound p fuel 0 0 E hall (by norm_num)
      (fun _ => ⟨Nat.zero_and _, fun k hk0 hk1 => absurd hk0 (by omega)⟩) g hgE
    exact check_constraints_full p g hsound.1 hsound.2 slot hs0 hs1

/-- C1 witness: the all-zero puzzle record's terminating run at fuel 300
returns `([], 0)`, and the theorem applies to it. -/
theorem solve_solutions_satisfy_constraints_witness :
    solve 300 zero_puzzle 4 = some ([], 0) ∧
    (∀ g ∈ ([] : List Nat), ∀ slot : Int, 0 ≤ slot → slot < 64 →
      check_constraints zero_puzzle g slot = true) :=
  ⟨by decide, solve_solutions_satisfy_constraints 300 zero_puzzle 4 [] 0
    (fun i h1 h2 => ⟨Nat.zero_le 8, Nat.zero_le 8⟩) (by decide)⟩

/-! ## Solver completeness (claim C2): the DFS enumerates every grid whose
truncations pass all checks -/

theorem high_clear_trunc (k : Int) (m : Nat) : high_clear (trunc k m) k :=
  trunc_trunc k k m (le_refl k)

theorem trunc_step_set (g : Nat) (slot : Int) (h0 : 0 ≤ slot) (h1 : slot < 64)
    (hb : g.testBit (63 - slot).toNat = true) :
    slot_set (trunc (slot - 1) g) slot = trunc slot g := by
  apply Nat.eq_of_testBit_eq; intro j
  rw [slot_set_testBit _ slot h0 h1, trunc_testBit, trunc_testBit]
  by_cases hj : (63 - slot).toNat = j
  · subst hj
    have hB : (63 - slot).toNat < 64 := by omega
    simp [hb, hB]
  · have hd : decide ((63 - slot).toNat = j) = false := by simp [hj]
    rw [hd]
    cases hgj : g.testBit j <;>
      by_cases hA : (63 - (slot - 1)).toNat ≤ j <;>
      by_cases hB : (63 - slot).toNat ≤ j <;>
      by_cases hC : j < 64 <;>
      simp [hA, hB, hC] <;> omega

theorem trunc_step_unset (g : Nat) (slot : Int) (h0 : 0 ≤ slot) (h1 : slot < 64)
    (hb : g.testBit (63 - slot).toNat = false) :
    trunc slot g = trunc (slot - 1) g := by
  apply Nat.eq_of_testBit_eq; intro j
  rw [trunc_testBit, trunc_testBit]
  by_cases hj : (63 - slot).toNat = j
  · subst hj
    have hA : ¬ (63 - (slot - 1)).toNat ≤ (63 - slot).toNat := by omega
    simp [hb, hA]
  · cases hgj : g.testBit j <;>
      by_cases hA : (63 - (slot - 1)).toNat ≤ j <;>
      by_cases hB : (63 - slot).toNat ≤ j <;>
      by_cases hC : j < 64 <;>
      simp [hA, hB, hC] <;> omega

theorem slot_unset_high_clear_eq (sol : Nat) (slot : Int) (h0 : 0 ≤ slot)
    (h1 : slot < 64) (hhc : high_clear sol slot) :
    slot_unset sol slot = trunc (slot - 1) sol := by
  have hm := high_clear_lt sol slot hhc
  apply Nat.eq_of_testBit_eq; intro j
  rw [slot_unset_testBit sol slot hm h0 h1, trunc_testBit]
  by_cases hj : (63 - slot).toNat = j
  · subst hj
    have hA : ¬ (63 - (slot - 1)).toNat ≤ (63 - slot).toNat := by omega
    simp [hA]
  · cases hsj : sol.testBit j
    · simp [hj]
    · obtain ⟨hA, hB⟩ := high_clear_testBit sol slot hhc j hsj
      have hA2 : (63 - (slot - 1)).toNat ≤ j := by omega
      simp [hj, hA2, hB]

theorem backtrack_top_set (m : Nat) (slot : Int) (h0 : 0 ≤ slot)
    (hbit : slot_is_set m slot ≠ 0) :
    backtrack_n m (slot + 1).toNat = slot := by
  have h : (slot + 1).toNat = slot.toNat + 1 := by omega
  rw [h]
  simp only [backtrack_n]
  have hc : ((slot.toNat : Nat) : Int) = slot := Int.toNat_of_nonneg h0
  rw [hc, if_neg hbit]

theorem backtrack_facts (m : Nat) (n : Nat) (hm : m < 2 ^ 64)
    (hhi : ∀ j : Int, (n : Int) ≤ j → 0 ≤ j → j < 64 → slot_is_set m j = 0) :
    high_clear m (backtrack_n m n) ∧
    ∀ j : Int, 0 ≤ j → j < 64 → slot_is_set m j ≠ 0 → j ≤ backtrack_n m n := by
  obtain ⟨hs1, hs2, hs3⟩ := backtrack_n_spec m n
  constructor
  · apply high_clear_of_unset_above m hm
    intro j hj h0j hj64
    by_cases hn : j < (n : Int)
    · exact hs3 j hj hn
    · exact hhi j (by omega) h0j hj64
  · intro j h0j hj64 hset
    by_contra hc
    push_neg at hc
    by_cases hn : j < (n : Int)
    · exact hset (hs3 j hc hn)
    · exact hset (hhi j (by omega) h0j hj64)

theorem slot_is_set_ne_zero_of_testBit (m : Nat) (i : Int) (h0 : 0 ≤ i)
    (h1 : i < 64) (hb : m.testBit (63 - i).toNat = true) :
    slot_is_set m i ≠ 0 := by
  intro h
  rw [slot_is_set_zero_iff m i h0 h1] at h
  rw [h] at hb
  cases hb

theorem solve_all_go_complete (p : Puzzle) (g : Nat) (hg : g < 2 ^ 64)
    (hpc : prefix_checks p g) :
    ∀ (fuel : Nat) (sol : Nat) (slot : Int) (E : List Nat),
      solve_all_go p fuel sol slot = some E →
      0 ≤ slot → slot < 64 →
      (sol = trunc (slot - 1) g ∨
        ∃ j : Int, 0 ≤ j ∧ j ≤ slot ∧ trunc (j - 1) sol = trunc (j - 1) g ∧
          sol.testBit (63 - j).toNat = true ∧ g.testBit (63 - j).toNat = false ∧
          high_clear sol slot) →
      g ∈ E := by
  intro fuel
  induction fuel with
  | zero =>
    intro sol slot E h
    cases h
  | succ fuel ih =>
    intro sol slot E hE h0 h1 hinv
    simp only [solve_all_go] at hE
    rw [if_neg (by omega : ¬(slot < 0 ∨ 64 ≤ slot))] at hE
    have hhc : high_clear sol slot := by
      rcases hinv with hON | ⟨j, hj0, hjs, hag, hsb, hgb, hhcA⟩
      · rw [hON]
        exact high_clear_mono _ (slot - 1) slot (by omega) (high_clear_trunc _ _)
      · exact hhcA
    have hmlt : sol < 2 ^ 64 := high_clear_lt _ _ hhc
    set sol2 := (if slot_is_set sol slot = 0 then slot_set sol slot
                 else slot_unset sol slot) with hsol2
    rcases hinv with hON | ⟨j, hj0, hjs, hag, hsb, hgb, hhcA⟩
    · -- on the path of g below slot
      have hbitsol : slot_is_set sol slot = 0 := by
        apply slot_is_set_zero_of_high_clear sol (slot - 1) slot _ (by omega) h0 h1
        rw [hON]
        exact high_clear_trunc _ _
      have hs2 : sol2 = slot_set sol slot := by rw [hsol2, if_pos hbitsol]
      cases hgbit : g.testBit (63 - slot).toNat with
      | true =>
        -- the machine walls the cell, exactly like g: still on path
        have hs2g : sol2 = trunc slot g := by
          rw [hs2, hON, trunc_step_set g slot h0 h1 hgbit]
        have hc : check_constraints p sol2 slot = true := by
          rw [hs2g]
          exact hpc slot h0 h1
        rw [if_pos hc] at hE
        by_cases hl : slot < 63
        · rw [if_pos hl] at hE
          refine ih sol2 (slot + 1) E hE (by omega) (by omega) (Or.inl ?_)
          rw [hs2g]
          congr 1
          ring
        · have hs63 : slot = 63 := by omega
          subst hs63
          rw [if_neg hl] at hE
          have hgsol : sol2 = g := by rw [hs2g, trunc_63 g hg]
          cases hrec : solve_all_go p fuel sol2
              (backtrack_n sol2 ((63 : Int) + 1).toNat) with
          | none => rw [hrec] at hE; cases hE
          | some E2 =>
            rw [hrec] at hE
            simp only [Option.map_some', Option.some.injEq] at hE
            subst hE
            rw [← hgsol]
            exact List.mem_cons_self _ _
      | false =>
        -- the machine walls the cell but g leaves it open: now ahead at j = slot
        have hb2 : sol2.testBit (63 - slot).toNat = true := by
          rw [hs2, slot_set_testBit sol slot h0 h1]
          simp
        have hag2 : trunc (slot - 1) sol2 = trunc (slot - 1) g := by
          rw [hs2, trunc_slot_set_of_lt sol (slot - 1) slot h0 h1 (by omega), hON,
            trunc_trunc (slot - 1) (slot - 1) g (le_refl _)]
        have hhc2 : high_clear sol2 slot := by
          rw [hs2]
          exact high_clear_slot_set sol slot h0 h1 hhc
        have hne2 : slot_is_set sol2 slot ≠ 0 :=
          slot_is_set_ne_zero_of_testBit sol2 slot h0 h1 hb2
        by_cases hc : check_constraints p sol2 slot = true
        · rw [if_pos hc] at hE
          by_cases hl : slot < 63
          · rw [if_pos hl] at hE
            exact ih sol2 (slot + 1) E hE (by omega) (by omega)
              (Or.inr ⟨slot, h0, by omega, hag2, hb2, hgbit,
                high_clear_mono _ slot (slot + 1) (by omega) hhc2⟩)
          · have hs63 : slot = 63 := by omega
            subst hs63
            rw [if_neg hl] at hE
            have hbt : backtrack_n sol2 ((63 : Int) + 1).toNat = 63 :=
              backtrack_top_set sol2 63 (by norm_num) hne2
            rw [hbt] at hE
            cases hrec : solve_all_go p fuel sol2 (63 : Int) with
            | none => rw [hrec] at hE; cases hE
            | some E2 =>
              rw [hrec] at hE
              simp only [Option.map_some', Option.some.injEq] at hE
              subst hE
              exact List.mem_cons_of_mem _
                (ih sol2 63 E2 hrec (by norm_num) (by norm_num)
                  (Or.inr ⟨63, by norm_num, le_refl _, hag2, hb2, hgbit, hhc2⟩))
        · rw [if_neg hc] at hE
          have hbt : backtrack_n sol2 (slot + 1).toNat = slot :=
            backtrack_top_set sol2 slot h0 hne2
          rw [hbt] at hE
          exact ih sol2 slot E hE h0 h1
            (Or.inr ⟨slot, h0, le_refl _, hag2, hb2, hgbit, hhc2⟩)
    · -- ahead of g: the first difference is at slot j, where sol has a wall
      by_cases hbit : slot_is_set sol slot = 0
      · -- fresh cell: the machine walls it; still ahead at j
        have hjlt : j < slot := by
          rcases eq_or_lt_of_le hjs with heq | hlt
          · exfalso
            subst heq
            rw [slot_is_set_zero_iff sol j hj0 h1] at hbit
            rw [hbit] at hsb
            cases hsb
          · exact hlt
        have hs2 : sol2 = slot_set sol slot := by rw [hsol2, if_pos hbit]
        have hag2 : trunc (j - 1) sol2 = trunc (j - 1) g := by
          rw [hs2, trunc_slot_set_of_lt sol (j - 1) slot h0 h1 (by omega), hag]
        have hb2 : sol2.testBit (63 - j).toNat = true := by
          rw [hs2, slot_set_testBit sol slot h0 h1, hsb]
          simp
        have hhc2 : high_clear sol2 slot := by
          rw [hs2]
          exact high_clear_slot_set sol slot h0 h1 hhcA
        have hne2 : slot_is_set sol2 slot ≠ 0 := by
          apply slot_is_set_ne_zero_of_testBit sol2 slot h0 h1
          rw [hs2, slot_set_testBit sol slot h0 h1]
          simp
        by_cases hc : check_constraints p sol2 slot = true
        · rw [if_pos hc] at hE
          by_cases hl : slot < 63
          · rw [if_pos hl] at hE
            exact ih sol2 (slot + 1) E hE (by omega) (by omega)
              (Or.inr ⟨j, hj0, by omega, hag2, hb2, hgb,
                high_clear_mono _ slot (slot + 1) (by omega) hhc2⟩)
          · have hs63 : slot = 63 := by omega
            subst hs63
            rw [if_neg hl] at hE
            have hbt : backtrack_n sol2 ((63 : Int) + 1).toNat = 63 :=
              backtrack_top_set sol2 63 (by norm_num) hne2
            rw [hbt] at hE
            cases hrec : solve_all_go p fuel sol2 (63 : Int) with
            | none => rw [hrec] at hE; cases hE
            | some E2 =>
              rw [hrec] at hE
              simp only [Option.map_some', Option.some.injEq] at hE
              subst hE
              exact List.mem_cons_of_mem _
                (ih sol2 63 E2 hrec (by norm_num) (by norm_num)
                  (Or.inr ⟨j, hj0, by omega, hag2, hb2, hgb, hhc2⟩))
        · rw [if_neg hc] at hE
          have hbt : backtrack_n sol2 (slot + 1).toNat = slot :=
            backtrack_top_set sol2 slot h0 hne2
          rw [hbt] at hE
          exact ih sol2 slot E hE h0 h1
            (Or.inr ⟨j, hj0, hjs, hag2, hb2, hgb, hhc2⟩)
      · -- set cell: the machine clears it
        have hs2 : sol2 = slot_unset sol slot := by rw [hsol2, if_neg hbit]
        have hlt2 : sol2 < 2 ^ 64 := by
          rw [hs2]
          exact slot_unset_lt _ _ hmlt
        by_cases hjslot : j = slot
        · -- the machine clears the difference bit: back on g's path
          subst hjslot
          have hs2g : sol2 = trunc (j - 1) g := by
            rw [hs2, slot_unset_high_clear_eq sol j hj0 h1 hhcA, hag]
          have htr : trunc j g = trunc (j - 1) g :=
            trunc_step_unset g j hj0 h1 hgb
          have hc : check_constraints p sol2 j = true := by
            rw [hs2g, ← htr]
            exact hpc j hj0 h1
          rw [if_pos hc] at hE
          by_cases hl : j < 63
          · rw [if_pos hl] at hE
            refine ih sol2 (j + 1) E hE (by omega) (by omega) (Or.inl ?_)
            rw [hs2g, show j + 1 - 1 = j by ring, htr]
          · have hs63 : j = 63 := by omega
            subst hs63
            rw [if_neg hl] at hE
            have hgsol : sol2 = g := by
              rw [hs2g, ← htr, trunc_63 g hg]
            cases hrec : solve_all_go p fuel sol2
                (backtrack_n sol2 ((63 : Int) + 1).toNat) with
            | none => rw [hrec] at hE; cases hE
            | some E2 =>
              rw [hrec] at hE
              simp only [Option.map_some', Option.some.injEq] at hE
              subst hE
              rw [← hgsol]
              exact List.mem_cons_self _ _
        · -- the cleared cell is below the difference: still ahead at j
          have hjlt : j < slot := by
            rcases eq_or_lt_of_le hjs with heq | hlt
            · exact absurd heq hjslot
            · exact hlt
          have hag2 : trunc (j - 1) sol2 = trunc (j - 1) g := by
            rw [hs2, trunc_slot_unset_of_lt sol (j - 1) slot hmlt h0 h1 (by omega), hag]
          have hb2 : sol2.testBit (63 - j).toNat = true := by
            rw [hs2, slot_unset_testBit sol slot hmlt h0 h1, hsb]
            have : ¬ (63 - slot).toNat = (63 - j).toNat := by omega
            simp [this]
          have hhc2 : high_clear sol2 slot := by
            rw [hs2]
            exact high_clear_slot_unset sol slot slot hhcA
          have hne2 : slot_is_set sol2 j ≠ 0 :=
            slot_is_set_ne_zero_of_testBit sol2 j hj0 (by omega) hb2
          by_cases hc : check_constraints p sol2 slot = true
          · rw [if_pos hc] at hE
            by_cases hl : slot < 63
            · rw [if_pos hl] at hE
              exact ih sol2 (slot + 1) E hE (by omega) (by omega)
                (Or.inr ⟨j, hj0, by omega, hag2, hb2, hgb,
                  high_clear_mono _ slot (slot + 1) (by omega) hhc2⟩)
            · have hs63 : slot = 63 := by omega
              subst hs63
              rw [if_neg hl] at hE
              obtain ⟨hcbt, hjbt⟩ := backtrack_facts sol2 ((63 : Int) + 1).toNat hlt2
                (fun j' hj' h0j' hj64' => absurd hj64' (by omega))
              obtain ⟨hsp1, hsp2, hsp3⟩ :=
                backtrack_n_spec sol2 ((63 : Int) + 1).toNat
              have hjle' : j ≤ backtrack_n sol2 ((63 : Int) + 1).toNat :=
                hjbt j hj0 (by omega) hne2
              cases hrec : solve_all_go p fuel sol2
                  (backtrack_n sol2 ((63 : Int) + 1).toNat) with
              | none => rw [hrec] at hE; cases hE
              | some E2 =>
                rw [hrec] at hE
                simp only [Option.map_some', Option.some.injEq] at hE
                subst hE
                refine List.mem_cons_of_mem _
                  (ih sol2 _ E2 hrec (by omega) (by omega)
                    (Or.inr ⟨j, hj0, hjle', hag2, hb2, hgb, hcbt⟩))
          · rw [if_neg hc] at hE
            obtain ⟨hcbt, hjbt⟩ := backtrack_facts sol2 (slot + 1).toNat hlt2
              (fun j' hj' h0j' hj64' =>
                slot_is_set_zero_of_high_clear sol2 slot j' hhc2 (by omega) h0j' hj64')
            obtain ⟨hsp1, hsp2, hsp3⟩ := backtrack_n_spec sol2 (slot + 1).toNat
            have hjle' : j ≤ backtrack_n sol2 (slot + 1).toNat :=
              hjbt j hj0 (by omega) hne2
            refine ih sol2 _ E hE (by omega) ?_
              (Or.inr ⟨j, hj0, hjle', hag2, hb2, hgb, hcbt⟩)
            have : ((slot + 1).toNat : Int) = slot + 1 := by omega
            omega

theorem generate_checks_state (st : GenState) :
    generate_checks (gen_state_at st.monsters st.treasures st.solution st.slot) =
      generate_checks st := rfl

theorem derived_puzzle_state (st : GenState) :
    derived_puzzle (gen_state_at st.monsters st.treasures st.solution st.slot) =
      derived_puzzle st := rfl

theorem GenInv_slot_update (st : GenState) (k : Int) (h : GenInv st) :
    GenInv { st with slot := k } := h

theorem gen_backtrack_n_spec (tiles : Int → Tile) :
    ∀ n : Nat, gen_backtrack_n tiles n < (n : Int) ∧
      (-1 : Int) ≤ gen_backtrack_n tiles n ∧
      ∀ j : Int, gen_backtrack_n tiles n < j → j < (n : Int) →
        tiles j = Tile.EMPTY := by
  intro n
  induction n with
  | zero =>
    refine ⟨by norm_num [gen_backtrack_n], by norm_num [gen_backtrack_n], ?_⟩
    intro j h1 h2
    simp only [gen_backtrack_n] at h1 h2
    exact absurd h1 (by push_cast at h2 ⊢; omega)
  | succ k ih =>
    simp only [gen_backtrack_n]
    by_cases hb : tiles (k : Int) = Tile.EMPTY
    · rw [if_pos hb]
      obtain ⟨ih1, ih2, ih3⟩ := ih
      refine ⟨by push_cast; omega, ih2, ?_⟩
      intro j h1 h2
      by_cases hj : j < (k : Int)
      · exact ih3 j h1 hj
      · have hjk : j = (k : Int) := by push_cast at h2; omega
        rw [hjk]
        exact hb
    · rw [if_neg hb]
      refine ⟨by push_cast; omega, by omega, ?_⟩
      intro j h1 h2
      exact absurd h1 (by push_cast at h2; omega)

/-- Under the tag/bit correspondence, a grid bit is clear wherever the tile
is empty. -/
theorem GenInv_empty_clear (st : GenState) (hinv : GenInv st) (j : Int)
    (h0 : 0 ≤ j) (h1 : j < 64) (hemp : st.tiles j = Tile.EMPTY) :
    slot_is_set st.solution j = 0 ∧ slot_is_set st.monsters j = 0 ∧
    slot_is_set st.treasures j = 0 := by
  obtain ⟨hs, hm, ht, _, _, _, hcorr⟩ := hinv
  obtain ⟨e1, e2, e3⟩ := hcorr ⟨j.toNat, by omega⟩
  have hc : ((j.toNat : Nat) : Int) = j := by omega
  simp only [hc, hemp] at e1 e2 e3
  have he : (63 - j).toNat = 63 - j.toNat := by omega
  refine ⟨?_, ?_, ?_⟩
  · rw [slot_is_set_zero_iff _ j h0 h1, he]
    simpa using e1
  · rw [slot_is_set_zero_iff _ j h0 h1, he]
    simpa using e2
  · rw [slot_is_set_zero_iff _ j h0 h1, he]
    simpa using e3

theorem gen_backtrack_state (st2 : GenState) (h0 : 0 ≤ st2.slot) (h64 : st2.slot < 64)
    (hinv2 : GenInv st2)
    (hcS : high_clear st2.solution st2.slot) (hcM : high_clear st2.monsters st2.slot)
    (hcT : high_clear st2.treasures st2.slot) :
    high_clear st2.solution (gen_backtrack_n st2.tiles (st2.slot + 1).toNat) ∧
    high_clear st2.monsters (gen_backtrack_n st2.tiles (st2.slot + 1).toNat) ∧
    high_clear st2.treasures (gen_backtrack_n st2.tiles (st2.slot + 1).toNat) := by
  obtain ⟨hb1, hb2, hb3⟩ := gen_backtrack_n_spec st2.tiles (st2.slot + 1).toNat
  have hn : (((st2.slot + 1).toNat : Nat) : Int) = st2.slot + 1 := by omega
  rw [hn] at hb1 hb3
  refine ⟨?_, ?_, ?_⟩
  · apply high_clear_of_unset_above _ (high_clear_lt _ _ hcS)
    intro j hj h0j hj64
    by_cases hjs : j ≤ st2.slot
    · exact (GenInv_empty_clear st2 hinv2 j h0j hj64 (hb3 j hj (by omega))).1
    · exact slot_is_set_zero_of_high_clear _ st2.slot j hcS (by omega) h0j hj64
  · apply high_clear_of_unset_above _ (high_clear_lt _ _ hcM)
    intro j hj h0j hj64
    by_cases hjs : j ≤ st2.slot
    · exact (GenInv_empty_clear st2 hinv2 j h0j hj64 (hb3 j hj (by omega))).2.1
    · exact slot_is_set_zero_of_high_clear _ st2.slot j hcM (by omega) h0j hj64
  · apply high_clear_of_unset_above _ (high_clear_lt _ _ hcT)
    intro j hj h0j hj64
    by_cases hjs : j ≤ st2.slot
    · exact (GenInv_empty_clear st2 hinv2 j h0j hj64 (hb3 j hj (by omega))).2.2
    · exact slot_is_set_zero_of_high_clear _ st2.slot j hcT (by omega) h0j hj64

theorem cycle_step_slot (st : GenState) : (cycle_step st).slot = st.slot := by
  unfold cycle_step
  cases st.tiles st.slot <;> rfl

theorem cycle_step_grids (st : GenState) (h0 : 0 ≤ st.slot) (h64 : st.slot < 64)
    (hcS : high_clear st.solution st.slot) (hcM : high_clear st.monsters st.slot)
    (hcT : high_clear st.treasures st.slot) :
    (high_clear (cycle_step st).solution st.slot ∧
     high_clear (cycle_step st).monsters st.slot ∧
     high_clear (cycle_step st).treasures st.slot) ∧
    ∀ k : Int, k < st.slot →
      trunc k (cycle_step st).solution = trunc k st.solution ∧
      trunc k (cycle_step st).monsters = trunc k st.monsters ∧
      trunc k (cycle_step st).treasures = trunc k st.treasures := by
  have hmS := high_clear_lt _ _ hcS
  have hmM := high_clear_lt _ _ hcM
  have hmT := high_clear_lt _ _ hcT
  unfold cycle_step
  cases st.tiles st.slot
  case EMPTY =>
    exact ⟨⟨hcS, hcM, high_clear_slot_set _ _ h0 h64 hcT⟩,
      fun k hk => ⟨rfl, rfl, trunc_slot_set_of_lt _ k _ h0 h64 hk⟩⟩
  case TREASURE =>
    exact ⟨⟨hcS, high_clear_slot_set _ _ h0 h64 hcM,
        high_clear_slot_unset _ _ _ hcT⟩,
      fun k hk => ⟨rfl, trunc_slot_set_of_lt _ k _ h0 h64 hk,
        trunc_slot_unset_of_lt _ k _ hmT h0 h64 hk⟩⟩
  case MONSTER =>
    exact ⟨⟨high_clear_slot_set _ _ h0 h64 hcS,
        high_clear_slot_unset _ _ _ hcM, hcT⟩,
      fun k hk => ⟨trunc_slot_set_of_lt _ k _ h0 h64 hk,
        trunc_slot_unset_of_lt _ k _ hmM h0 h64 hk, rfl⟩⟩
  case WALL =>
    exact ⟨⟨high_clear_slot_unset _ _ _ hcS, hcM, hcT⟩,
      fun k hk => ⟨trunc_slot_unset_of_lt _ k _ hmS h0 h64 hk, rfl, rfl⟩⟩

theorem generate_go_sound (sf mx : Nat) :
    ∀ (fuel : Nat) (out : List GeneratedPuzzle) (cnt : Nat) (st : GenState)
      (R : List GeneratedPuzzle × Nat),
      generate_go sf mx fuel out cnt st = some R →
      st.slot < 64 →
      GenInv st →
      (0 ≤ st.slot →
        high_clear st.solution st.slot ∧ high_clear st.monsters st.slot ∧
        high_clear st.treasures st.slot ∧
        ∀ k : Int, 0 ≤ k → k < st.slot →
          generate_checks (gen_state_at (trunc k st.monsters)
            (trunc k st.treasures) (trunc k st.solution) k) = true) →
      ∀ gp ∈ R.1, gp ∈ out ∨
        ∃ M T S : Nat,
          M < 2 ^ 64 ∧ T < 2 ^ 64 ∧ S < 2 ^ 64 ∧
          S &&& M = 0 ∧ S &&& T = 0 ∧ M &&& T = 0 ∧
          gp.puzzle = derived_puzzle (gen_state_at M T S 63) ∧
          (∀ k : Int, 0 ≤ k → k < 64 →
            generate_checks (gen_state_at (trunc k M) (trunc k T) (trunc k S) k)
              = true) ∧
          ∃ stored : List Nat,
            solve sf (derived_puzzle (gen_state_at M T S 63)) 128 =
              some (stored, gp.num_solutions) := by
  intro fuel
  induction fuel with
  | zero =>
    intro out cnt st R hE
    cases hE
  | succ fuel ih =>
    intro out cnt st R hE h64 hinv hstate
    simp only [generate_go] at hE
    by_cases hg : st.slot < 0 ∨ 64 ≤ st.slot
    · rw [if_pos hg] at hE
      injection hE with h
      subst h
      intro gp hgp
      exact Or.inl hgp
    · rw [if_neg hg] at hE
      have h0 : (0 : Int) ≤ st.slot := by omega
      obtain ⟨hcS, hcM, hcT, hH⟩ := hstate h0
      have hinv2 : GenInv (cycle_step st) := cycle_step_inv st h0 h64 hinv
      have hslot2 : (cycle_step st).slot = st.slot := cycle_step_slot st
      obtain ⟨⟨hcS2, hcM2, hcT2⟩, htr2⟩ :=
        cycle_step_grids st h0 h64 hcS hcM hcT
      have hH2 : ∀ k : Int, 0 ≤ k → k < st.slot →
          generate_checks (gen_state_at (trunc k (cycle_step st).monsters)
            (trunc k (cycle_step st).treasures)
            (trunc k (cycle_step st).solution) k) = true := by
        intro k hk0 hk1
        obtain ⟨e1, e2, e3⟩ := htr2 k hk1
        rw [e1, e2, e3]
        exact hH k hk0 hk1
      by_cases hck : generate_checks (cycle_step st) = true
      · rw [if_pos hck] at hE
        have hckslot : generate_checks (gen_state_at (trunc st.slot (cycle_step st).monsters)
            (trunc st.slot (cycle_step st).treasures)
            (trunc st.slot (cycle_step st).solution) st.slot) = true := by
          rw [show trunc st.slot (cycle_step st).monsters = (cycle_step st).monsters from
              high_clear_mono _ st.slot st.slot (le_refl _) hcM2,
            show trunc st.slot (cycle_step st).solution = (cycle_step st).solution from
              high_clear_mono _ st.slot st.slot (le_refl _) hcS2,
            show trunc st.slot (cycle_step st).treasures = (cycle_step st).treasures from
              high_clear_mono _ st.slot st.slot (le_refl _) hcT2,
            ← hslot2, generate_checks_state]
          exact hck
        have hHfull : ∀ k : Int, 0 ≤ k → k < st.slot + 1 →
            generate_checks (gen_state_at (trunc k (cycle_step st).monsters)
              (trunc k (cycle_step st).treasures)
              (trunc k (cycle_step st).solution) k) = true := by
          intro k hk0 hk1
          by_cases hk : k < st.slot
          · exact hH2 k hk0 hk
          · have hks : k = st.slot := by omega
            subst hks
            exact hckslot
        by_cases hl : (cycle_step st).slot < 63
        · rw [if_pos hl] at hE
          refine ih out cnt _ R hE ?_ (GenInv_slot_update _ _ hinv2) ?_
          · simp only
            omega
          · intro _
            simp only
            refine ⟨high_clear_mono _ st.slot ((cycle_step st).slot + 1)
                (by omega) hcS2,
              high_clear_mono _ st.slot ((cycle_step st).slot + 1) (by omega) hcM2,
              high_clear_mono _ st.slot ((cycle_step st).slot + 1) (by omega) hcT2,
              ?_⟩
            intro k hk0 hk1
            exact hHfull k hk0 (by omega)
        · rw [if_neg hl] at hE
          have hs63 : (cycle_step st).slot = 63 := by omega
          split at hE
          · exact Option.noConfusion hE
          next stored nsol hsol =>
            by_cases hcnt : cnt < mx
            · rw [if_pos hcnt] at hE
              obtain ⟨hbS, hbM, hbT⟩ := gen_backtrack_state (cycle_step st)
                (by omega) (by omega) hinv2 (by rw [hslot2]; exact hcS2) (by rw [hslot2]; exact hcM2) (by rw [hslot2]; exact hcT2)
              intro gp hgp
              have hslotb : ({ cycle_step st with
                  slot := gen_backtrack_n (cycle_step st).tiles
                    ((cycle_step st).slot + 1).toNat } : GenState).slot < 64 := by
                simp only
                obtain ⟨hq1, _, _⟩ :=
                  gen_backtrack_n_spec (cycle_step st).tiles ((cycle_step st).slot + 1).toNat
                have : ((((cycle_step st).slot + 1).toNat : Nat) : Int) =
                    (cycle_step st).slot + 1 := by omega
                omega
              have hstateb : 0 ≤ ({ cycle_step st with
                  slot := gen_backtrack_n (cycle_step st).tiles
                    ((cycle_step st).slot + 1).toNat } : GenState).slot →
                  high_clear ({ cycle_step st with
                    slot := gen_backtrack_n (cycle_step st).tiles
                      ((cycle_step st).slot + 1).toNat } : GenState).solution
                    ({ cycle_step st with
                    slot := gen_backtrack_n (cycle_step st).tiles
                      ((cycle_step st).slot + 1).toNat } : GenState).slot ∧
                  high_clear ({ cycle_step st with
                    slot := gen_backtrack_n (cycle_step st).tiles
                      ((cycle_step st).slot + 1).toNat } : GenState).monsters
                    ({ cycle_step st with
                    slot := gen_backtrack_n (cycle_step st).tiles
                      ((cycle_step st).slot + 1).toNat } : GenState).slot ∧
                  high_clear ({ cycle_step st with
                    slot := gen_backtrack_n (cycle_step st).tiles
                      ((cycle_step st).slot + 1).toNat } : GenState).treasures
                    ({ cycle_step st with
                    slot := gen_backtrack_n (cycle_step st).tiles
                      ((cycle_step st).slot + 1).toNat } : GenState).slot ∧
                  ∀ k : Int, 0 ≤ k → k < ({ cycle_step st with
                    slot := gen_backtrack_n (cycle_step st).tiles
                      ((cycle_step st).slot + 1).toNat } : GenState).slot →
                    generate_checks (gen_state_at
                      (trunc k ({ cycle_step st with
                        slot := gen_backtrack_n (cycle_step st).tiles
                          ((cycle_step st).slot + 1).toNat } : GenState).monsters)
                      (trunc k ({ cycle_step st with
                        slot := gen_backtrack_n (cycle_step st).tiles
                          ((cycle_step st).slot + 1).toNat } : GenState).treasures)
                      (trunc k ({ cycle_step st with
                        slot := gen_backtrack_n (cycle_step st).tiles
                          ((cycle_step st).slot + 1).toNat } : GenState).solution)
                      k) = true := by
                intro _
                simp only
                refine ⟨hbS, hbM, hbT, ?_⟩
                intro k hk0 hk1
                obtain ⟨hq1, _, _⟩ :=
                  gen_backtrack_n_spec (cycle_step st).tiles ((cycle_step st).slot + 1).toNat
                have hcast : ((((cycle_step st).slot + 1).toNat : Nat) : Int) =
                    (cycle_step st).slot + 1 := by omega
                exact hHfull k hk0 (by omega)
              rcases ih _ (cnt + 1) _ R hE hslotb (GenInv_slot_update _ _ hinv2) hstateb
                  gp hgp with hin | hem
              · rcases List.mem_append.mp hin with hA | hA
                · exact Or.inl hA
                · have hgpe : gp = { puzzle := derived_puzzle (cycle_step st), num_solutions := nsol } := List.mem_singleton.mp hA
                  subst hgpe
                  obtain ⟨hw1, hw2, hw3, hd1, hd2, hd3, _⟩ := hinv2
                  have hpz : derived_puzzle (cycle_step st) =
                      derived_puzzle (gen_state_at (cycle_step st).monsters
                        (cycle_step st).treasures (cycle_step st).solution 63) := by
                    rw [← hs63, derived_puzzle_state]
                  refine Or.inr ⟨(cycle_step st).monsters, (cycle_step st).treasures,
                    (cycle_step st).solution, hw2, hw3, hw1, hd1, hd2, hd3, hpz, ?_, ?_⟩
                  · intro k hk0 hk1
                    by_cases hk : k < st.slot
                    · exact hH2 k hk0 hk
                    · have hks : k = 63 := by omega
                      subst hks
                      rw [show st.slot = (63 : Int) from by omega] at hckslot
                      exact hckslot
                  · exact ⟨stored, by rw [← hpz]; exact hsol⟩
              · exact Or.inr hem
            · rw [if_neg hcnt] at hE
              injection hE with h
              subst h
              intro gp hgp
              exact Or.inl hgp
      · rw [if_neg hck] at hE
        obtain ⟨hbS, hbM, hbT⟩ := gen_backtrack_state (cycle_step st)
          (by omega) (by omega) hinv2 (by rw [hslot2]; exact hcS2) (by rw [hslot2]; exact hcM2) (by rw [hslot2]; exact hcT2)
        refine ih out cnt _ R hE ?_ (GenInv_slot_update _ _ hinv2) ?_
        · simp only
          obtain ⟨hq1, _, _⟩ :=
            gen_backtrack_n_spec (cycle_step st).tiles ((cycle_step st).slot + 1).toNat
          have : ((((cycle_step st).slot + 1).toNat : Nat) : Int) =
              (cycle_step st).slot + 1 := by omega
          omega
        · intro _
          simp only
          refine ⟨hbS, hbM, hbT, ?_⟩
          intro k hk0 hk1
          obtain ⟨hq1, _, _⟩ :=
            gen_backtrack_n_spec (cycle_step st).tiles ((cycle_step st).slot + 1).toNat
          have hcast : ((((cycle_step st).slot + 1).toNat : Nat) : Int) =
              (cycle_step st).slot + 1 := by omega
          exact hH2 k hk0 (by omega)

theorem gen_checks_iff (M T S : Nat) (k : Int) :
    generate_checks (gen_state_at M T S k) = true ↔
      (is_invalid_monster (gen_record M T) S (pos_from_slot k) = false ∧
       check_doesnt_overlap (gen_record M T) S = true ∧
       check_dead_ends (gen_record M T) S k = true ∧
       check_monsters (gen_record M T) S k = true ∧
       check_wide_space (gen_record M T) S k = true ∧
       check_treasure_rooms (gen_record M T) S k = true) := by
  unfold generate_checks gen_state_at gen_puzzle gen_record
  simp only [Bool.and_eq_true, Bool.not_eq_true']
  tauto

theorem and_sub_and (a b c : Nat) : (a &&& (b &&& c)) &&& (a &&& b) = a &&& (b &&& c) := by
  apply Nat.eq_of_testBit_eq; intro j
  simp only [Nat.testBit_and]
  cases a.testBit j <;> cases b.testBit j <;> cases c.testBit j <;> rfl

theorem trunc_and_right_zero (S X : Nat) (k : Int) (h : S &&& X = 0) :
    trunc k S &&& X = 0 := by
  unfold trunc
  calc S &&& prefMask k &&& X = S &&& X &&& prefMask k := by
        rw [Nat.and_assoc, Nat.and_comm (prefMask k), ← Nat.and_assoc]
    _ = 0 := by rw [h, Nat.zero_and]

theorem and_trunc_zero (X S : Nat) (k : Int) (h : X &&& S = 0) :
    X &&& trunc k S = 0 := by
  unfold trunc
  calc X &&& (S &&& prefMask k) = X &&& S &&& prefMask k := by rw [Nat.and_assoc]
    _ = 0 := by rw [h, Nat.zero_and]

theorem and_trunc_ne (X S : Nat) (k : Int) (h : X &&& trunc k S ≠ 0) :
    X &&& S ≠ 0 := fun h0 => h (and_trunc_zero X S k h0)

theorem count_walls_in_row_mono (S : Nat) (r k : Int) :
    count_walls_in_row (trunc k S) r ≤ count_walls_in_row S r := by
  unfold count_walls_in_row
  exact csb_mono _ _ (and_sub_and _ S (prefMask k))

theorem count_walls_in_col_mono (S : Nat) (c k : Int) :
    count_walls_in_col (trunc k S) c ≤ count_walls_in_col S c := by
  unfold count_walls_in_col
  exact csb_mono _ _ (and_sub_and _ S (prefMask k))

theorem check_doesnt_overlap_congr (p q : Puzzle) (hm : p.monsters = q.monsters)
    (ht : p.treasures = q.treasures) (s : Nat) :
    check_doesnt_overlap p s = check_doesnt_overlap q s := by
  unfold check_doesnt_overlap
  rw [hm, ht]

theorem check_dead_ends_congr (p q : Puzzle) (hm : p.monsters = q.monsters)
    (ht : p.treasures = q.treasures) (s : Nat) (k : Int) :
    check_dead_ends p s k = check_dead_ends q s k := by
  unfold check_dead_ends is_dead_end
  simp only [hm, ht]

theorem check_monsters_congr (p q : Puzzle) (hm : p.monsters = q.monsters)
    (ht : p.treasures = q.treasures) (s : Nat) (k : Int) :
    check_monsters p s k = check_monsters q s k := by
  unfold check_monsters is_invalid_monster
  simp only [hm, ht]

theorem check_wide_space_congr (p q : Puzzle) (hm : p.monsters = q.monsters)
    (ht : p.treasures = q.treasures) (s : Nat) (k : Int) :
    check_wide_space p s k = check_wide_space q s k := by
  unfold check_wide_space
  simp only [hm, ht]

theorem check_treasure_rooms_congr (p q : Puzzle) (hm : p.monsters = q.monsters)
    (ht : p.treasures = q.treasures) (s : Nat) (k : Int) :
    check_treasure_rooms p s k = check_treasure_rooms q s k := by
  unfold check_treasure_rooms is_invalid_treasure is_invalid_treasure_room
  simp only [hm, ht]

theorem derived_row_prefix (S : Nat) (p : Puzzle) (k : Int) (h0 : 0 ≤ k) (h1 : k < 64)
    (hrw : (p.row_wall_counts (pos_from_slot k).row : Int) =
      count_walls_in_row S (pos_from_slot k).row) :
    check_row_count p (trunc k S) k = true := by
  rw [check_row_count_iff]
  obtain ⟨hr0, hr8, hc0, hc8, hrc⟩ := slot_decomp k h0 h1
  constructor
  · rw [hrw]
    exact count_walls_in_row_mono S _ k
  · intro hcol7
    rw [hrw, count_walls_in_row_trunc S _ k hr0 hr8 (by omega)]

theorem derived_col_prefix (S : Nat) (p : Puzzle) (k : Int) (h0 : 0 ≤ k) (h1 : k < 64)
    (hcw : (p.col_wall_counts (pos_from_slot k).col : Int) =
      count_walls_in_col S (pos_from_slot k).col) :
    check_col_count p (trunc k S) k = true := by
  rw [check_col_count_iff]
  obtain ⟨hr0, hr8, hc0, hc8, hrc⟩ := slot_decomp k h0 h1
  constructor
  · rw [hcw]
    exact count_walls_in_col_mono S _ k
  · intro hrow7
    rw [hcw, count_walls_in_col_trunc S _ k hc0 hc8 (by omega)]

theorem is_dead_end_mt (M T M2 T2 s : Nat) (pp : Pos)
    (hm : pos_set 0 pp &&& M = pos_set 0 pp &&& M2)
    (ht : pos_set 0 pp &&& T = pos_set 0 pp &&& T2) :
    is_dead_end (gen_record M T) s pp = is_dead_end (gen_record M2 T2) s pp := by
  simp only [is_dead_end, gen_record]
  rw [hm, ht]

theorem is_invalid_monster_mt (M T M2 T2 s : Nat) (pp : Pos)
    (hm : pos_set 0 pp &&& M = pos_set 0 pp &&& M2)
    (hbm : border_mask_of pp &&& M = border_mask_of pp &&& M2)
    (hbt : border_mask_of pp &&& T = border_mask_of pp &&& T2) :
    is_invalid_monster (gen_record M T) s pp = is_invalid_monster (gen_record M2 T2) s pp := by
  simp only [is_invalid_monster, gen_record]
  simp only [hm, hbm, hbt]

theorem pos_pref_lit (a b k : Int)
    (h : 0 ≤ a → a < 8 → 0 ≤ b → b < 8 → a * 8 + b ≤ k) :
    pos_set 0 ({ row := a, col := b } : Pos) &&& prefMask k =
      pos_set 0 { row := a, col := b } :=
  single_pos_pref _ k h

theorem border_pref_lit (a b k : Int)
    (h1 : 0 ≤ a - 1 → a - 1 < 8 → 0 ≤ b → b < 8 → (a - 1) * 8 + b ≤ k)
    (h2 : 0 ≤ a + 1 → a + 1 < 8 → 0 ≤ b → b < 8 → (a + 1) * 8 + b ≤ k)
    (h3 : 0 ≤ a → a < 8 → 0 ≤ b - 1 → b - 1 < 8 → a * 8 + (b - 1) ≤ k)
    (h4 : 0 ≤ a → a < 8 → 0 ≤ b + 1 → b + 1 < 8 → a * 8 + (b + 1) ≤ k) :
    border_mask_of ({ row := a, col := b } : Pos) &&& prefMask k =
      border_mask_of { row := a, col := b } := by
  refine border_pref _ k ?_
  rintro r c (⟨rfl, rfl⟩ | ⟨rfl, rfl⟩ | ⟨rfl, rfl⟩ | ⟨rfl, rfl⟩)
  · exact h1
  · exact h2
  · exact h3
  · exact h4

theorem check_dead_ends_mt (M T S' : Nat) (k : Int) (h0 : 0 ≤ k) (h1 : k < 64)
    (h : check_dead_ends (gen_record (trunc k M) (trunc k T)) S' k = true) :
    check_dead_ends (gen_record M T) S' k = true := by
  obtain ⟨hr0, hr8, hc0, hc8, hrc⟩ := slot_decomp k h0 h1
  rw [check_dead_ends_iff] at h ⊢
  obtain ⟨ha, hb, hc⟩ := h
  have habv : pos_set 0 ({ row := (pos_from_slot k).row - 1, col := (pos_from_slot k).col } : Pos) &&& prefMask k =
      pos_set 0 { row := (pos_from_slot k).row - 1, col := (pos_from_slot k).col } :=
    pos_pref_lit _ _ k (by intro u1 u2 u3 u4; omega)
  have hlft : pos_set 0 ({ row := (pos_from_slot k).row, col := (pos_from_slot k).col - 1 } : Pos) &&& prefMask k =
      pos_set 0 { row := (pos_from_slot k).row, col := (pos_from_slot k).col - 1 } :=
    pos_pref_lit _ _ k (by intro u1 u2 u3 u4; omega)
  have hslf : pos_set 0 (pos_from_slot k) &&& prefMask k =
      pos_set 0 (pos_from_slot k) :=
    single_pos_pref _ k (by intro u1 u2 u3 u4; omega)
  refine ⟨?_, ?_, ?_⟩
  · rw [← is_dead_end_mt (trunc k M) (trunc k T) M T S' _
      (and_trunc_eq _ M k habv) (and_trunc_eq _ T k habv)]
    exact ha
  · rw [← is_dead_end_mt (trunc k M) (trunc k T) M T S' _
      (and_trunc_eq _ M k hlft) (and_trunc_eq _ T k hlft)]
    exact hb
  · rw [← is_dead_end_mt (trunc k M) (trunc k T) M T S' _
      (and_trunc_eq _ M k hslf) (and_trunc_eq _ T k hslf)]
    exact hc

theorem check_monsters_mt (M T S' : Nat) (k : Int) (h0 : 0 ≤ k) (h1 : k < 64)
    (h : check_monsters (gen_record (trunc k M) (trunc k T)) S' k = true) :
    check_monsters (gen_record M T) S' k = true := by
  obtain ⟨hr0, hr8, hc0, hc8, hrc⟩ := slot_decomp k h0 h1
  rw [check_monsters_iff] at h ⊢
  obtain ⟨ha, hb⟩ := h
  have habv : pos_set 0 ({ row := (pos_from_slot k).row - 1, col := (pos_from_slot k).col } : Pos) &&& prefMask k =
      pos_set 0 { row := (pos_from_slot k).row - 1, col := (pos_from_slot k).col } :=
    pos_pref_lit _ _ k (by intro u1 u2 u3 u4; omega)
  have habvb : border_mask_of ({ row := (pos_from_slot k).row - 1, col := (pos_from_slot k).col } : Pos) &&& prefMask k =
      border_mask_of { row := (pos_from_slot k).row - 1, col := (pos_from_slot k).col } :=
    border_pref_lit _ _ k (by intro u1 u2 u3 u4; omega) (by intro u1 u2 u3 u4; omega)
      (by intro u1 u2 u3 u4; omega) (by intro u1 u2 u3 u4; omega)
  constructor
  · rw [← is_invalid_monster_mt (trunc k M) (trunc k T) M T S' _
      (and_trunc_eq _ M k habv) (and_trunc_eq _ M k habvb) (and_trunc_eq _ T k habvb)]
    exact ha
  · intro hrow7
    obtain ⟨hb1, hb2⟩ := hb hrow7
    have hlft : pos_set 0 ({ row := (pos_from_slot k).row, col := (pos_from_slot k).col - 1 } : Pos) &&& prefMask k =
        pos_set 0 { row := (pos_from_slot k).row, col := (pos_from_slot k).col - 1 } :=
      pos_pref_lit _ _ k (by intro u1 u2 u3 u4; omega)
    have hlftb : border_mask_of ({ row := (pos_from_slot k).row, col := (pos_from_slot k).col - 1 } : Pos) &&& prefMask k =
        border_mask_of { row := (pos_from_slot k).row, col := (pos_from_slot k).col - 1 } :=
      border_pref_lit _ _ k (by intro u1 u2 u3 u4; omega) (by intro u1 u2 u3 u4; omega)
        (by intro u1 u2 u3 u4; omega) (by intro u1 u2 u3 u4; omega)
    constructor
    · rw [← is_invalid_monster_mt (trunc k M) (trunc k T) M T S' _
        (and_trunc_eq _ M k hlft) (and_trunc_eq _ M k hlftb) (and_trunc_eq _ T k hlftb)]
      exact hb1
    · intro hcol7
      have hslf : pos_set 0 (pos_from_slot k) &&& prefMask k =
          pos_set 0 (pos_from_slot k) :=
        single_pos_pref _ k (by intro u1 u2 u3 u4; omega)
      have hslfb : border_mask_of (pos_from_slot k) &&& prefMask k =
          border_mask_of (pos_from_slot k) := by
        refine border_pref _ k ?_
        rintro r c (⟨rfl, rfl⟩ | ⟨rfl, rfl⟩ | ⟨rfl, rfl⟩ | ⟨rfl, rfl⟩) _ _ _ _ <;> omega
      rw [← is_invalid_monster_mt (trunc k M) (trunc k T) M T S' _
        (and_trunc_eq _ M k hslf) (and_trunc_eq _ M k hslfb) (and_trunc_eq _ T k hslfb)]
      exact hb2 hcol7

theorem check_wide_space_mt (M T S' : Nat) (k : Int) (h0 : 0 ≤ k) (h1 : k < 64)
    (h : check_wide_space (gen_record (trunc k M) (trunc k T)) S' k = true) :
    check_wide_space (gen_record M T) S' k = true := by
  obtain ⟨hr0, hr8, hc0, hc8, hrc⟩ := slot_decomp k h0 h1
  have hsp : space_mask_of (pos_from_slot k) &&& prefMask k =
      space_mask_of (pos_from_slot k) := by
    refine space_pref _ k ?_
    rintro r c (⟨rfl, rfl⟩ | ⟨rfl, rfl⟩ | ⟨rfl, rfl⟩ | ⟨rfl, rfl⟩) _ _ _ _ <;> omega
  have hM : space_mask_of (pos_from_slot k) &&& trunc k M =
      space_mask_of (pos_from_slot k) &&& M := and_trunc_eq _ M k hsp
  have hT : space_mask_of (pos_from_slot k) &&& trunc k T =
      space_mask_of (pos_from_slot k) &&& T := and_trunc_eq _ T k hsp
  simp only [check_wide_space, gen_record] at h ⊢
  by_cases hg : count_set_bits (space_mask_of (pos_from_slot k)) = 4 ∧
      space_mask_of (pos_from_slot k) &&& S' = 0 ∧
      space_mask_of (pos_from_slot k) &&& M = 0 ∧
      space_mask_of (pos_from_slot k) &&& T = 0
  · rw [if_pos hg]
    have hgM : space_mask_of (pos_from_slot k) &&& trunc k M = 0 := by
      rw [hM]
      exact hg.2.2.1
    have hgT : space_mask_of (pos_from_slot k) &&& trunc k T = 0 := by
      rw [hT]
      exact hg.2.2.2
    rw [if_pos ⟨hg.1, hg.2.1, hgM, hgT⟩] at h
    by_cases hnb : space_neighbors_of (pos_from_slot k) &&& trunc k T ≠ 0
    · rw [if_pos (and_trunc_ne _ T k hnb)]
    · rw [if_neg hnb] at h
      cases h
  · rw [if_neg hg]

theorem walls_pref (q : Pos) (k : Int)
    (h : ∀ r c : Int,
      ((r = q.row - 2 ∧ c = q.col - 1) ∨
       (r = q.row - 2 ∧ c = q.col) ∨
       (r = q.row - 2 ∧ c = q.col + 1) ∨
       (r = q.row + 2 ∧ c = q.col - 1) ∨
       (r = q.row + 2 ∧ c = q.col) ∨
       (r = q.row + 2 ∧ c = q.col + 1) ∨
       (r = q.row - 1 ∧ c = q.col - 2) ∨
       (r = q.row ∧ c = q.col - 2) ∨
       (r = q.row + 1 ∧ c = q.col - 2) ∨
       (r = q.row - 1 ∧ c = q.col + 2) ∨
       (r = q.row ∧ c = q.col + 2) ∨
       (r = q.row + 1 ∧ c = q.col + 2)) →
      0 ≤ r → r < 8 → 0 ≤ c → c < 8 → r * 8 + c ≤ k) :
    walls_mask_of q &&& prefMask k = walls_mask_of q := by
  unfold walls_mask_of
  refine land_pref_pos_set _ _ _ (land_pref_pos_set _ _ _ (land_pref_pos_set _ _ _ (land_pref_pos_set _ _ _ (land_pref_pos_set _ _ _ (land_pref_pos_set _ _ _ (land_pref_pos_set _ _ _ (land_pref_pos_set _ _ _ (land_pref_pos_set _ _ _ (land_pref_pos_set _ _ _ (land_pref_pos_set _ _ _ (land_pref_pos_set _ _ _ (Nat.zero_and _) ?_) ?_) ?_) ?_) ?_) ?_) ?_) ?_) ?_) ?_) ?_) ?_
  · exact fun h1 h2 h3 h4 => h _ _ (Or.inl ⟨rfl, rfl⟩) h1 h2 h3 h4
  · exact fun h1 h2 h3 h4 => h _ _ (Or.inr (Or.inl ⟨rfl, rfl⟩)) h1 h2 h3 h4
  · exact fun h1 h2 h3 h4 => h _ _ (Or.inr (Or.inr (Or.inl ⟨rfl, rfl⟩))) h1 h2 h3 h4
  · exact fun h1 h2 h3 h4 => h _ _ (Or.inr (Or.inr (Or.inr (Or.inl ⟨rfl, rfl⟩)))) h1 h2 h3 h4
  · exact fun h1 h2 h3 h4 => h _ _ (Or.inr (Or.inr (Or.inr (Or.inr (Or.inl ⟨rfl, rfl⟩))))) h1 h2 h3 h4
  · exact fun h1 h2 h3 h4 => h _ _ (Or.inr (Or.inr (Or.inr (Or.inr (Or.inr (Or.inl ⟨rfl, rfl⟩)))))) h1 h2 h3 h4
  · exact fun h1 h2 h3 h4 => h _ _ (Or.inr (Or.inr (Or.inr (Or.inr (Or.inr (Or.inr (Or.inl ⟨rfl, rfl⟩))))))) h1 h2 h3 h4
  · exact fun h1 h2 h3 h4 => h _ _ (Or.inr (Or.inr (Or.inr (Or.inr (Or.inr (Or.inr (Or.inr (Or.inl ⟨rfl, rfl⟩)))))))) h1 h2 h3 h4
  · exact fun h1 h2 h3 h4 => h _ _ (Or.inr (Or.inr (Or.inr (Or.inr (Or.inr (Or.inr (Or.inr (Or.inr (Or.inl ⟨rfl, rfl⟩))))))))) h1 h2 h3 h4
  · exact fun h1 h2 h3 h4 => h _ _ (Or.inr (Or.inr (Or.inr (Or.inr (Or.inr (Or.inr (Or.inr (Or.inr (Or.inr (Or.inl ⟨rfl, rfl⟩)))))))))) h1 h2 h3 h4
  · exact fun h1 h2 h3 h4 => h _ _ (Or.inr (Or.inr (Or.inr (Or.inr (Or.inr (Or.inr (Or.inr (Or.inr (Or.inr (Or.inr (Or.inl ⟨rfl, rfl⟩))))))))))) h1 h2 h3 h4
  · exact fun h1 h2 h3 h4 => h _ _ (Or.inr (Or.inr (Or.inr (Or.inr (Or.inr (Or.inr (Or.inr (Or.inr (Or.inr (Or.inr (Or.inr (⟨rfl, rfl⟩)))))))))))) h1 h2 h3 h4

theorem is_invalid_treasure_room_of_63_pref (p : Puzzle) (S : Nat) (hS : S < 2 ^ 64)
    (t c : Pos) (k : Int) (h0 : 0 ≤ k) (h1 : k < 64)
    (h : is_invalid_treasure_room p S t c 63 = false) :
    is_invalid_treasure_room p (trunc k S) t c k = false := by
  simp only [is_invalid_treasure_room] at h ⊢
  by_cases g1 : count_set_bits (room_mask_of c) ≠ 9
  · rw [if_pos g1] at h; cases h
  rw [if_neg g1] at h ⊢
  by_cases g2 : room_mask_of c &&& p.monsters ≠ 0 ∨
      room_mask_of c &&& pos_unset p.treasures t ≠ 0
  · rw [if_pos g2] at h; cases h
  rw [if_neg g2] at h ⊢
  by_cases g3 : room_mask_of c &&& S ≠ 0
  · rw [if_pos g3] at h; cases h
  rw [if_neg g3] at h
  have g3' : room_mask_of c &&& trunc k S = 0 :=
    and_trunc_zero _ S k (not_not.mp g3)
  rw [if_neg (not_not_intro g3')]
  by_cases g4 : walls_mask_of c &&& p.monsters ≠ 0 ∨
      walls_mask_of c &&& p.treasures ≠ 0
  · rw [if_pos g4] at h; cases h
  rw [if_neg g4] at h ⊢
  have hc63 : ((pos_from_slot (63 : Int)).row ≥ c.row + 2 ∧
      (pos_from_slot (63 : Int)).col ≥ c.col + 2) ∨
      ((pos_from_slot (63 : Int)).row = 7 ∧ (pos_from_slot (63 : Int)).col = 7) :=
    Or.inr ⟨by decide, by decide⟩
  rw [if_pos hc63] at h
  have hcc : count_set_bits (walls_mask_of c &&& S)
      = count_set_bits (walls_mask_of c) - 1 := by
    by_cases hq : count_set_bits (walls_mask_of c &&& S)
        = count_set_bits (walls_mask_of c) - 1
    · exact hq
    · rw [if_pos hq] at h; cases h
  obtain ⟨hr0, hr8, hcB0, hcB8, hrc⟩ := slot_decomp k h0 h1
  split_ifs with hck hne heq
  · have hwk : walls_mask_of c &&& trunc k S = walls_mask_of c &&& S := by
      rcases hck with ⟨hq1, hq2⟩ | ⟨hq1, hq2⟩
      · refine and_trunc_eq _ S k (walls_pref c k ?_)
        rintro r cc (h | h | h | h | h | h | h | h | h | h | h | h) u1 u2 u3 u4 <;>
          obtain ⟨rfl, rfl⟩ := h <;> omega
      · have hk63 : k = 63 := by omega
        subst hk63
        rw [trunc_63 S hS]
    rw [hwk] at hne
    exact absurd hcc hne
  · rfl
  · have hsub : (walls_mask_of c &&& trunc k S) &&& (walls_mask_of c &&& S) =
        walls_mask_of c &&& trunc k S := and_sub_and _ S (prefMask k)
    have hmono := csb_mono (walls_mask_of c &&& S) (walls_mask_of c &&& trunc k S) hsub
    omega
  · rfl

theorem is_invalid_treasure_of_63_pref (p : Puzzle) (S : Nat) (hS : S < 2 ^ 64)
    (t : Pos) (k : Int) (h0 : 0 ≤ k) (h1 : k < 64)
    (h : is_invalid_treasure p S t 63 = false) :
    is_invalid_treasure p (trunc k S) t k = false := by
  simp only [is_invalid_treasure, Bool.eq_false_iff, Ne, List.all_eq_true] at h ⊢
  intro hall
  apply h
  intro row hrow col hcol
  have hk := hall row hrow col hcol
  rcases Bool.eq_false_or_eq_true
      (is_invalid_treasure_room p S t { row := row, col := col } 63) with e | e
  · exact e
  · have h2 := is_invalid_treasure_room_of_63_pref p S hS t { row := row, col := col }
      k h0 h1 e
    rw [h2] at hk
    cases hk

theorem check_treasure_rooms_of_63_pref (p : Puzzle) (S : Nat) (hS : S < 2 ^ 64)
    (k : Int) (h0 : 0 ≤ k) (h1 : k < 64)
    (h : check_treasure_rooms p S 63 = true) :
    check_treasure_rooms p (trunc k S) k = true := by
  simp only [check_treasure_rooms] at h ⊢
  split_ifs at h ⊢ with ht
  · rfl
  · simp only [List.all_eq_true] at h ⊢
    intro row hrow col hcol
    have hk := h row hrow col hcol
    by_cases hset : pos_is_set p.treasures { row := ((row : Nat) : Int), col := ((col : Nat) : Int) } ≠ 0
    · rw [if_pos hset] at hk ⊢
      rcases Bool.eq_false_or_eq_true
          (is_invalid_treasure p S { row := ((row : Nat) : Int), col := ((col : Nat) : Int) } 63) with e | e
      · rw [e] at hk
        cases hk
      · have h2 := is_invalid_treasure_of_63_pref p S hS _ k h0 h1 e
        rw [h2]
        rfl
    · rw [if_neg hset]

theorem gen_prefix_checks (M T S : Nat) (hM : M < 2 ^ 64) (hT : T < 2 ^ 64)
    (hS : S < 2 ^ 64) (hSM : S &&& M = 0) (hST : S &&& T = 0)
    (GH : ∀ k : Int, 0 ≤ k → k < 64 →
      generate_checks (gen_state_at (trunc k M) (trunc k T) (trunc k S) k) = true) :
    prefix_checks (derived_puzzle (gen_state_at M T S 63)) S := by
  have hG63 := (gen_checks_iff M T S 63).mp (by
    have hx := GH 63 (by norm_num) (by norm_num)
    rw [trunc_63 M hM, trunc_63 T hT, trunc_63 S hS] at hx
    exact hx)
  intro k hk0 hk1
  have hGk := (gen_checks_iff (trunc k M) (trunc k T) (trunc k S) k).mp (GH k hk0 hk1)
  obtain ⟨hgim, hgov, hgde, hgmn, hgws, hgtr⟩ := hGk
  rw [check_constraints_eq_true_iff]
  have hdm : (derived_puzzle (gen_state_at M T S 63)).monsters =
      (gen_record M T).monsters := rfl
  have hdt : (derived_puzzle (gen_state_at M T S 63)).treasures =
      (gen_record M T).treasures := rfl
  refine ⟨?_, ?_, ?_, ?_, ?_, ?_, ?_⟩
  · rw [check_doesnt_overlap_congr _ (gen_record M T) hdm hdt]
    unfold check_doesnt_overlap gen_record
    simp only
    have e1 : trunc k S &&& T = 0 := trunc_and_right_zero S T k hST
    have e2 : trunc k S &&& M = 0 := trunc_and_right_zero S M k hSM
    simp [e1, e2]
  · refine derived_row_prefix S _ k hk0 hk1 ?_
    exact Int.toNat_of_nonneg (csb_nonneg _)
  · refine derived_col_prefix S _ k hk0 hk1 ?_
    exact Int.toNat_of_nonneg (csb_nonneg _)
  · rw [check_dead_ends_congr _ (gen_record M T) hdm hdt]
    exact check_dead_ends_mt M T (trunc k S) k hk0 hk1 hgde
  · rw [check_monsters_congr _ (gen_record M T) hdm hdt]
    exact check_monsters_mt M T (trunc k S) k hk0 hk1 hgmn
  · rw [check_wide_space_congr _ (gen_record M T) hdm hdt]
    exact check_wide_space_mt M T (trunc k S) k hk0 hk1 hgws
  · rw [check_treasure_rooms_congr _ (gen_record M T) hdm hdt]
    exact check_treasure_rooms_of_63_pref (gen_record M T) S hS k hk0 hk1 hG63.2.2.2.2.2

theorem trunc_lt_zero (k : Int) (hk : k < 0) (g : Nat) : trunc k g = 0 := by
  apply Nat.eq_of_testBit_eq; intro j
  rw [trunc_testBit, Nat.zero_testBit]
  by_cases h1 : (63 - k).toNat ≤ j <;> by_cases h2 : j < 64 <;>
    simp [h1, h2] <;> omega

/-- C2: every puzzle record and solution count emitted by a terminating run
of `generate` has solution count at least 1, and running `solve` (with the
same per-call fuel, at a capacity large enough to store everything) on that
record yields the originating generated grid among its stored solutions; the
record's row/column targets are exactly the wall counts of that grid. -/
theorem generate_round_trip (fuel sf mx : Nat) :
    match generate fuel sf mx with
    | none => True
    | some r =>
      ∀ gp ∈ r.1, 1 ≤ gp.num_solutions ∧
        ∃ g lst,
          (∀ i : Int, gp.puzzle.row_wall_counts i = (count_walls_in_row g i).toNat) ∧
          (∀ i : Int, gp.puzzle.col_wall_counts i = (count_walls_in_col g i).toNat) ∧
          solve sf gp.puzzle gp.num_solutions = some (lst, gp.num_solutions) ∧
          g ∈ lst := by
  cases hE : generate fuel sf mx with
  | none => trivial
  | some R =>
    obtain ⟨out, cnt⟩ := R
    intro gp hgp
    have hinit : 0 ≤ gen_init.slot →
        high_clear gen_init.solution gen_init.slot ∧
        high_clear gen_init.monsters gen_init.slot ∧
        high_clear gen_init.treasures gen_init.slot ∧
        ∀ k : Int, 0 ≤ k → k < gen_init.slot →
          generate_checks (gen_state_at (trunc k gen_init.monsters)
            (trunc k gen_init.treasures) (trunc k gen_init.solution) k) = true := by
      intro _
      refine ⟨Nat.zero_and _, Nat.zero_and _, Nat.zero_and _, ?_⟩
      intro k hk0 hk1
      have hk1' : k < (0 : Int) := hk1
      omega
    have hsound := generate_go_sound sf mx fuel [] 0 gen_init (out, cnt) hE
      (by decide) gen_init_inv hinit gp hgp
    rcases hsound with hin | ⟨M, T, S, hM, hT, hS, hSM, hST, hMT, hpz, GH, stored, hsolve⟩
    · cases hin
    · have hpc := gen_prefix_checks M T S hM hT hS hSM hST GH
      rw [solve_eq_all] at hsolve
      cases hall : solve_all_go (derived_puzzle (gen_state_at M T S 63)) sf 0 0 with
      | none =>
        rw [hall] at hsolve
        cases hsolve
      | some E =>
        rw [hall] at hsolve
        simp only [Option.map_some', Option.some.injEq] at hsolve
        have hlen : E.length = gp.num_solutions := congrArg Prod.snd hsolve
        have hmem : S ∈ E := solve_all_go_complete _ S hS hpc sf 0 0 E hall
          (le_refl 0) (by norm_num)
          (Or.inl (trunc_lt_zero (0 - 1) (by norm_num) S).symm)
        refine ⟨?_, S, E, ?_, ?_, ?_, hmem⟩
        · rw [← hlen]
          exact List.length_pos.mpr (List.ne_nil_of_mem hmem)
        · intro i
          rw [hpz]
          rfl
        · intro i
          rw [hpz]
          rfl
        · rw [hpz, solve_eq_all, hall]
          simp only [Option.map_some', Option.some.injEq]
          rw [← hlen, List.take_length]
